import Mathlib

/-!
Verification of the bounded-concurrency dispatcher in `pyhmmer/hmmer.py`.

The dispatcher (`_BaseDispatcher`) turns an input stream of queries into a
lazy stream of results, processed by a pool of worker threads
(`_BaseWorker.run`) that communicate through a bounded `queue.Queue`, a
counting semaphore (`query_available`), a shared kill flag (`kill_switch`)
and per-query `_Chore` objects holding a single-assignment result slot.

The multi-threaded path (`_BaseDispatcher._multi_threaded`), together with
the worker loop, is embedded below as a labelled small-step transition
system (`Step`): one constructor per atomic action of the producer
(the generator body of `_multi_threaded`) and of the workers.  Consecutive
thread-local writes with no cross-thread observation in between (e.g. the
`put` / `release` / `results.append` triple of the producer) are modelled
as one step.  The nondeterminism of the thread scheduler is the
nondeterminism of the step relation.  The pipeline engine is abstracted as
a deterministic function `engine : Q → Except E R`, covering the body of
`_BaseWorker.process` (the engine call, the callback, and the pipeline
reset): `.ok` is a normal result, `.error` a raised exception.
-/

namespace PyHmmer

/-- Source `_Chore`: one query together with its single-assignment result slot
(`hits` on success, `exception` on failure) and completion flag
(`event`, for `threading.Event.is_set`). -/
structure Chore (Q R E : Type) where
  query : Q
  event : Bool
  hits : Option R
  exception : Option E
deriving DecidableEq

/-- Source `_Chore.__init__`: a fresh pending chore. -/
def Chore.make {Q R E : Type} (q : Q) : Chore Q R E :=
  { query := q, event := false, hits := none, exception := none }

/-- Source `_Chore.available`: whether the chore is done. -/
def Chore.available {Q R E : Type} (c : Chore Q R E) : Bool :=
  c.event

/-- Source `_Chore.complete`: records `hits` and sets the event.  Note that the
source performs no already-done check: calling it again overwrites. -/
def Chore.complete {Q R E : Type} (c : Chore Q R E) (hits : R) : Chore Q R E :=
  { c with hits := some hits, event := true }

/-- Source `_Chore.fail`: records the exception and sets the event. -/
def Chore.fail {Q R E : Type} (c : Chore Q R E) (e : E) : Chore Q R E :=
  { c with exception := some e, event := true }

/-- Source `_Chore.get`: blocks until the event is set (`none` = still blocked),
then re-raises the recorded exception if any, else returns `hits`. -/
def Chore.get {Q R E : Type} (c : Chore Q R E) : Option (Except E (Option R)) :=
  if c.event then
    some (match c.exception with
      | some e => .error e
      | none => .ok c.hits)
  else none

/-- Exceptions raised by the dispatcher's own code. -/
inductive PyError where
  | valueError
deriving DecidableEq

/-- Source `_BaseDispatcher.__init__`, lines 302-309: reject a non-positive
`cpus` with a `ValueError`, then downsize by the stream's length hint
(`operator.length_hint`) only when that hint is non-zero
(`self.cpus = min(cpus, hint) if hint > 0 else cpus`). -/
def dispatcherCpus (cpus : Int) (hint : Nat) : Except PyError Int :=
  if cpus ≤ 0 then .error .valueError
  else if 0 < hint then .ok (min cpus (hint : Int))
  else .ok cpus

/-- Python `a or b` on an optional integer left operand:
`None` and `0` are falsy. -/
def pyOrOpt (a b : Option Nat) : Option Nat :=
  match a with
  | some k => if k = 0 then b else some k
  | none => b

/-- Python `a or d` with an integer right operand. -/
def pyOrNat (a : Option Nat) (d : Nat) : Nat :=
  match a with
  | some k => if k = 0 then d else k
  | none => d

/-- The cpu-count selection line shared by the four public entry points:
`cpus if cpus > 0 else psutil.cpu_count(logical=False) or os.cpu_count() or 1`.
`physical` models `psutil.cpu_count(logical=False)` and `osCount` models
`os.cpu_count()`, both of which may be `None` in Python. -/
def autoCpus (cpus : Int) (physical osCount : Option Nat) : Int :=
  if 0 < cpus then cpus else (pyOrNat (pyOrOpt physical osCount) 1 : Nat)

/-- Entry point `hmmsearch`, line 566. -/
def hmmsearchCpus : Int → Option Nat → Option Nat → Int := autoCpus

/-- Entry point `phmmer`, line 643. -/
def phmmerCpus : Int → Option Nat → Option Nat → Int := autoCpus

/-- Entry point `nhmmer`, line 724. -/
def nhmmerCpus : Int → Option Nat → Option Nat → Int := autoCpus

/-- Entry point `hmmscan`, line 934. -/
def hmmscanCpus : Int → Option Nat → Option Nat → Int := autoCpus

/-- Source `_BaseDispatcher._single_threaded`: process each query synchronously on
the calling thread and yield the result immediately.  An engine exception
propagates out of `thread.process` at once (there is no handler on this
path), ending the generator: the first component collects the values
yielded before that, the second the escaping exception, if any. -/
def singleThreadedRun {Q R E : Type} (engine : Q → Except E R) :
    List Q → List R × Option E
  | [] => ([], none)
  | q :: qs =>
    match engine q with
    | .ok r =>
      let rest := singleThreadedRun engine qs
      (r :: rest.1, rest.2)
    | .error e => ([], some e)

/-- The control state of one worker thread (`_BaseWorker.run`):
at the loop top (`running`), processing a dequeued chore (`working`),
between `self.kill()` and `chore.fail(exc)` after an engine exception
(`failing`), or returned (`stopped`). -/
inductive WState (E : Type) where
  | running
  | working (idx : Nat)
  | failing (idx : Nat) (exc : E)
  | stopped
deriving DecidableEq

/-- The control state of the producer, i.e. of the generator body of
`_multi_threaded` as driven by the consumer:
`feeding` = at the top of the `for query in self.queries` loop with the
given queries still to be read; `checkingHead` = just after an enqueue, at
the opportunistic `if results[0].available()` check; `poisoning k` = in the
poison-pill loop with `k` pills still to put; `draining` = in the final
`while results` loop; `finished` = generator exhausted; `raised e` = the
generator re-raised exception `e` (after setting the kill switch). -/
inductive PState (Q E : Type) where
  | feeding (pending : List Q)
  | checkingHead (pending : List Q)
  | poisoning (remaining : Nat)
  | draining
  | finished
  | raised (exc : E)
deriving DecidableEq

/-- The shared state of one `_multi_threaded` run.  `chores` lists the
`_Chore` objects in creation (= submission) order, so a chore is referred
to by its index; `queryQueue` is the bounded `queue.Queue` (a `none` entry
is the poison pill); `queryAvailable` the semaphore's counter;
`killSwitch` the shared kill flag; `queryCount` the processed counter;
`results` the deque of indices of in-flight chores, oldest first;
`emitted` the values yielded to the caller so far (each is the `hits`
field of the retrieved chore). -/
structure DispatchState (Q R E : Type) where
  chores : List (Chore Q R E)
  queryQueue : List (Option Nat)
  queryAvailable : Nat
  killSwitch : Bool
  queryCount : Nat
  workers : List (WState E)
  results : List Nat
  prod : PState Q E
  emitted : List (Option R)
deriving DecidableEq

/-- Labels distinguishing who performs a step, used for temporal claims
about individual workers. -/
inductive Label where
  | producer
  | workerStop (w : Nat)
  | workerDequeue (w : Nat) (item : Option Nat)
  | workerComplete (w : Nat)
  | workerKill (w : Nat)
  | workerFail (w : Nat)
deriving DecidableEq

/-- The labelled step relation of `_multi_threaded` with `cpus` workers
(the queue capacity is also `cpus`: `queue.Queue(maxsize=self.cpus)`).

Producer steps (label `.producer`):
* `putChore`: lines 367-373 — read the next query, bump `query_count`,
  create the chore, `put` it (enabled only while the bounded queue has
  room), release the semaphore, append to `results`.
* `headNotReady` / `headYield` / `headRaise`: lines 376-378 — the
  opportunistic check; when the head chore is done, `get()` either yields
  its `hits` or re-raises its recorded exception, the handler at lines
  388-392 then setting the kill switch.
* `startPoison` / `putPill` / `startDrain`: lines 379-383 — one poison
  pill plus one semaphore release per worker, blocking while the queue is
  full.
* `drainYield` / `drainRaise` / `drainDone`: lines 384-387 — drain the
  remaining chores in order, blocking on the head's `get()` (hence the
  step is enabled only once the head's event is set).

Worker steps for worker `w` (`_BaseWorker.run`, lines 186-205):
* `workerStopStep`: the loop condition observes the kill switch.
* `workerDequeuePill` / `workerDequeueChore`: acquire the semaphore and
  `get_nowait` the queue front; a pill stops the worker.
* `workerCompleteStep`: `process` succeeds and `chore.complete(hits)`.
* `workerKillStep` / `workerFailStep`: `process` raises — `self.kill()`
  first (sets the shared kill switch), then `chore.fail(exc)`, then back
  to the loop condition. -/
inductive Step {Q R E : Type} (engine : Q → Except E R) (cpus : Nat) :
    DispatchState Q R E → Label → DispatchState Q R E → Prop where
  | putChore {s : DispatchState Q R E} {q : Q} {pending : List Q}
      (hprod : s.prod = .feeding (q :: pending))
      (hroom : s.queryQueue.length < cpus) :
      Step engine cpus s .producer
        { s with
          chores := s.chores ++ [Chore.make q]
          queryQueue := s.queryQueue ++ [some s.chores.length]
          queryAvailable := s.queryAvailable + 1
          queryCount := s.queryCount + 1
          results := s.results ++ [s.chores.length]
          prod := .checkingHead pending }
  | headNotReady {s : DispatchState Q R E} {pending : List Q} {idx : Nat}
      {rest : List Nat} {ch : Chore Q R E}
      (hprod : s.prod = .checkingHead pending)
      (hres : s.results = idx :: rest)
      (hch : s.chores[idx]? = some ch)
      (hev : ch.event = false) :
      Step engine cpus s .producer { s with prod := .feeding pending }
  | headYield {s : DispatchState Q R E} {pending : List Q} {idx : Nat}
      {rest : List Nat} {ch : Chore Q R E}
      (hprod : s.prod = .checkingHead pending)
      (hres : s.results = idx :: rest)
      (hch : s.chores[idx]? = some ch)
      (hev : ch.event = true)
      (hexc : ch.exception = none) :
      Step engine cpus s .producer
        { s with
          results := rest
          emitted := s.emitted ++ [ch.hits]
          prod := .feeding pending }
  | headRaise {s : DispatchState Q R E} {pending : List Q} {idx : Nat}
      {rest : List Nat} {ch : Chore Q R E} {e : E}
      (hprod : s.prod = .checkingHead pending)
      (hres : s.results = idx :: rest)
      (hch : s.chores[idx]? = some ch)
      (hev : ch.event = true)
      (hexc : ch.exception = some e) :
      Step engine cpus s .producer
        { s with killSwitch := true, prod := .raised e }
  | startPoison {s : DispatchState Q R E}
      (hprod : s.prod = .feeding []) :
      Step engine cpus s .producer { s with prod := .poisoning cpus }
  | putPill {s : DispatchState Q R E} {k : Nat}
      (hprod : s.prod = .poisoning (k + 1))
      (hroom : s.queryQueue.length < cpus) :
      Step engine cpus s .producer
        { s with
          queryQueue := s.queryQueue ++ [none]
          queryAvailable := s.queryAvailable + 1
          prod := .poisoning k }
  | startDrain {s : DispatchState Q R E}
      (hprod : s.prod = .poisoning 0) :
      Step engine cpus s .producer { s with prod := .draining }
  | drainYield {s : DispatchState Q R E} {idx : Nat} {rest : List Nat}
      {ch : Chore Q R E}
      (hprod : s.prod = .draining)
      (hres : s.results = idx :: rest)
      (hch : s.chores[idx]? = some ch)
      (hev : ch.event = true)
      (hexc : ch.exception = none) :
      Step engine cpus s .producer
        { s with results := rest, emitted := s.emitted ++ [ch.hits] }
  | drainRaise {s : DispatchState Q R E} {idx : Nat} {rest : List Nat}
      {ch : Chore Q R E} {e : E}
      (hprod : s.prod = .draining)
      (hres : s.results = idx :: rest)
      (hch : s.chores[idx]? = some ch)
      (hev : ch.event = true)
      (hexc : ch.exception = some e) :
      Step engine cpus s .producer
        { s with killSwitch := true, prod := .raised e }
  | drainDone {s : DispatchState Q R E}
      (hprod : s.prod = .draining)
      (hres : s.results = []) :
      Step engine cpus s .producer { s with prod := .finished }
  | workerStopStep {s : DispatchState Q R E} {w : Nat}
      (hw : s.workers[w]? = some .running)
      (hkill : s.killSwitch = true) :
      Step engine cpus s (.workerStop w)
        { s with workers := s.workers.set w .stopped }
  | workerDequeuePill {s : DispatchState Q R E} {w : Nat} {qrest : List (Option Nat)}
      (hw : s.workers[w]? = some .running)
      (hkill : s.killSwitch = false)
      (hsem : 0 < s.queryAvailable)
      (hq : s.queryQueue = none :: qrest) :
      Step engine cpus s (.workerDequeue w none)
        { s with
          queryAvailable := s.queryAvailable - 1
          queryQueue := qrest
          workers := s.workers.set w .stopped }
  | workerDequeueChore {s : DispatchState Q R E} {w idx : Nat} {qrest : List (Option Nat)}
      (hw : s.workers[w]? = some .running)
      (hkill : s.killSwitch = false)
      (hsem : 0 < s.queryAvailable)
      (hq : s.queryQueue = some idx :: qrest) :
      Step engine cpus s (.workerDequeue w (some idx))
        { s with
          queryAvailable := s.queryAvailable - 1
          queryQueue := qrest
          workers := s.workers.set w (.working idx) }
  | workerCompleteStep {s : DispatchState Q R E} {w idx : Nat} {ch : Chore Q R E} {r : R}
      (hw : s.workers[w]? = some (.working idx))
      (hch : s.chores[idx]? = some ch)
      (hrun : engine ch.query = .ok r) :
      Step engine cpus s (.workerComplete w)
        { s with
          chores := s.chores.set idx (ch.complete r)
          workers := s.workers.set w .running }
  | workerKillStep {s : DispatchState Q R E} {w idx : Nat} {ch : Chore Q R E} {e : E}
      (hw : s.workers[w]? = some (.working idx))
      (hch : s.chores[idx]? = some ch)
      (hrun : engine ch.query = .error e) :
      Step engine cpus s (.workerKill w)
        { s with
          killSwitch := true
          workers := s.workers.set w (.failing idx e) }
  | workerFailStep {s : DispatchState Q R E} {w idx : Nat} {e : E} {ch : Chore Q R E}
      (hw : s.workers[w]? = some (.failing idx e))
      (hch : s.chores[idx]? = some ch) :
      Step engine cpus s (.workerFail w)
        { s with
          chores := s.chores.set idx (ch.fail e)
          workers := s.workers.set w .running }

/-- The state of `_multi_threaded` right after spawning the pool:
empty queue and deque, kill switch clear, `cpus` workers at their loop
top, the whole query stream still to be read. -/
def initState {Q R E : Type} (qs : List Q) (cpus : Nat) : DispatchState Q R E :=
  { chores := []
    queryQueue := []
    queryAvailable := 0
    killSwitch := false
    queryCount := 0
    workers := List.replicate cpus .running
    results := []
    prod := .feeding qs
    emitted := [] }

/-- Some thread takes a step. -/
def StepAny {Q R E : Type} (engine : Q → Except E R) (cpus : Nat)
    (s t : DispatchState Q R E) : Prop :=
  ∃ l, Step engine cpus s l t

/-- Reachability under any interleaving of the producer and the workers. -/
def Reach {Q R E : Type} (engine : Q → Except E R) (cpus : Nat) :
    DispatchState Q R E → DispatchState Q R E → Prop :=
  Relation.ReflTransGen (StepAny engine cpus)

/-! ### Generic list helpers -/

theorem getElem?_set_split {α : Type} (l : List α) (idx i : Nat) (a : α)
    (h : idx < l.length) :
    (l.set idx a)[i]? = if i = idx then some a else l[i]? := by
  by_cases hi : i = idx
  · subst hi
    simp [List.getElem?_set_eq_of_lt a h]
  · rw [List.getElem?_set_ne (Ne.symm hi)]
    simp [hi]

theorem getElem?_append_one {α : Type} (l : List α) (a : α) (i : Nat) :
    (l ++ [a])[i]? = if i = l.length then some a else l[i]? := by
  by_cases h1 : i < l.length
  · rw [List.getElem?_append_left h1]
    simp [Nat.ne_of_lt h1]
  · by_cases h2 : i = l.length
    · subst h2
      simp [List.getElem?_concat_length]
    · have hl : l.length ≤ i := by omega
      have hl2 : (l ++ [a]).length ≤ i := by
        simp only [List.length_append, List.length_singleton]
        omega
      rw [List.getElem?_eq_none hl2, List.getElem?_eq_none hl]
      simp [h2]

theorem getElem?_some_lt {α : Type} {l : List α} {i : Nat} {a : α}
    (h : l[i]? = some a) : i < l.length :=
  (List.getElem?_eq_some.mp h).1

theorem drop_cons_lt {α : Type} {l : List α} {n : Nat} {a : α} {t : List α}
    (h : l.drop n = a :: t) : n < l.length := by
  by_contra hn
  push_neg at hn
  rw [List.drop_eq_nil_of_le hn] at h
  cases h

theorem drop_cons_getElem? {α : Type} {l : List α} {n : Nat} {a : α} {t : List α}
    (h : l.drop n = a :: t) : l[n]? = some a := by
  have h2 := List.getElem?_drop l n 0
  rw [h] at h2
  simpa using h2.symm

theorem drop_cons_tail {α : Type} {l : List α} {n : Nat} {a : α} {t : List α}
    (h : l.drop n = a :: t) : t = l.drop (n + 1) := by
  rw [← List.drop_drop, List.drop_one, h]
  rfl

/-! ### The protocol invariant -/

/-- The producer phases that still read the query stream, with the
queries they have left to read. -/
def pendingOf {Q E : Type} : PState Q E → Option (List Q)
  | .feeding p => some p
  | .checkingHead p => some p
  | _ => none

/-- The producer phases reached only after the query stream is exhausted. -/
def prodExhausted {Q E : Type} : PState Q E → Bool
  | .poisoning _ => true
  | .draining => true
  | .finished => true
  | _ => false

/-- Worker slot `w` of the list `ws` currently holds chore index `i`
(it is processing it, or about to fail it). -/
def holdsAt {E : Type} (ws : List (WState E)) (w i : Nat) : Prop :=
  ws[w]? = some (.working i) ∨ ∃ e, ws[w]? = some (.failing i e)

theorem holdsAt_set {E : Type} (ws : List (WState E)) (w : Nat) (x : WState E)
    (w' i : Nat) (hw : w < ws.length) :
    holdsAt (ws.set w x) w' i ↔
      if w' = w then (x = .working i ∨ ∃ e, x = .failing i e)
      else holdsAt ws w' i := by
  unfold holdsAt
  rw [getElem?_set_split ws w w' x hw]
  by_cases h : w' = w <;> simp [h]

/-- The inductive invariant of the `_multi_threaded` protocol, for a run
on query stream `qs` with a deterministic `engine` and `cpus` workers.
`s.chores.length` is the number of queries submitted so far; write it `n`,
and write `c` for `s.emitted.length` (queries consumed by the caller). -/
structure Inv {Q R E : Type} (qs : List Q) (engine : Q → Except E R)
    (cpus : Nat) (s : DispatchState Q R E) : Prop where
  /-- At most `qs.length` chores are ever created. -/
  choresLe : s.chores.length ≤ qs.length
  /-- Chore `i` was created for the `i`-th input query. -/
  choresQuery : ∀ (i : Nat) (ch : Chore Q R E), s.chores[i]? = some ch → qs[i]? = some ch.query
  /-- A pending chore carries neither result nor exception. -/
  statusPending : ∀ (i : Nat) (ch : Chore Q R E), s.chores[i]? = some ch → ch.event = false →
    ch.hits = none ∧ ch.exception = none
  /-- A done chore carries exactly one of result/exception, and the value
  the engine produces for its own query. -/
  statusDone : ∀ (i : Nat) (ch : Chore Q R E), s.chores[i]? = some ch → ch.event = true →
    (∃ r, ch.hits = some r ∧ ch.exception = none ∧ engine ch.query = .ok r) ∨
    (∃ e, ch.hits = none ∧ ch.exception = some e ∧ engine ch.query = .error e)
  /-- While feeding, the pending list is exactly the unread tail of `qs`. -/
  pendingEq : ∀ p, pendingOf s.prod = some p → p = qs.drop s.chores.length
  /-- Once the producer is past its feed loop, every query was submitted. -/
  fedAll : prodExhausted s.prod = true → s.chores.length = qs.length
  /-- The deque holds exactly the consecutive in-flight indices. -/
  resultsRange : s.results = List.range' s.emitted.length s.results.length
  /-- Consumed plus in-flight equals submitted. -/
  emittedLen : s.emitted.length + s.results.length = s.chores.length
  /-- Every emitted value is the engine's result for the query at the same
  position. -/
  emittedOk : ∀ (k : Nat) (o : Option R), s.emitted[k]? = some o →
    ∃ (r : R) (q : Q), o = some r ∧ qs[k]? = some q ∧ engine q = .ok r
  /-- The bounded queue never exceeds its capacity. -/
  queueLen : s.queryQueue.length ≤ cpus
  /-- The semaphore counts the queued items. -/
  semEq : s.queryAvailable = s.queryQueue.length
  /-- The pool size is `cpus`. -/
  workersLen : s.workers.length = cpus
  /-- A queued chore is pending. -/
  queuedPending : ∀ i : Nat, some i ∈ s.queryQueue →
    ∃ ch : Chore Q R E, s.chores[i]? = some ch ∧ ch.event = false
  /-- A chore is queued at most once. -/
  queuedOnce : ∀ i, s.queryQueue.count (some i) ≤ 1
  /-- A held chore is pending. -/
  heldPending : ∀ w i : Nat, holdsAt s.workers w i →
    ∃ ch : Chore Q R E, s.chores[i]? = some ch ∧ ch.event = false
  /-- No chore is held by two workers. -/
  heldDistinct : ∀ w w' i, holdsAt s.workers w i → holdsAt s.workers w' i →
    w = w'
  /-- A held chore is no longer in the queue. -/
  heldNotQueued : ∀ w i, holdsAt s.workers w i → some i ∉ s.queryQueue
  /-- A worker about to fail a chore captured the exception its engine
  raised on that chore's query. -/
  failingSound : ∀ (w i : Nat) (e : E), s.workers[w]? = some (WState.failing i e) →
    ∃ ch : Chore Q R E, s.chores[i]? = some ch ∧ engine ch.query = .error e
  /-- The generator only finishes after draining the whole deque. -/
  finishedEmpty : s.prod = .finished → s.results = []
  /-- A raised exception is the one recorded in the chore at the exact
  position the caller was retrieving. -/
  raisedHead : ∀ e : E, s.prod = .raised e →
    ∃ ch : Chore Q R E, s.chores[s.emitted.length]? = some ch ∧ ch.exception = some e

/-- The head of the deque is the next position the caller consumes. -/
theorem head_index {Q R E : Type} {qs : List Q} {engine : Q → Except E R}
    {cpus : Nat} {s : DispatchState Q R E} (hinv : Inv qs engine cpus s)
    {idx : Nat} {rest : List Nat} (hres : s.results = idx :: rest) :
    idx = s.emitted.length ∧ rest = List.range' (s.emitted.length + 1) rest.length := by
  have h := hinv.resultsRange
  rw [hres, List.length_cons, List.range'_succ] at h
  injection h with h1 h2
  exact ⟨h1, h2⟩

/-- The invariant holds in the initial state. -/
theorem inv_init {Q R E : Type} (qs : List Q) (engine : Q → Except E R)
    (cpus : Nat) : Inv qs engine cpus (initState qs cpus : DispatchState Q R E) where
  choresLe := by simp [initState]
  choresQuery := by intro i ch h; simp [initState] at h
  statusPending := by intro i ch h; simp [initState] at h
  statusDone := by intro i ch h; simp [initState] at h
  pendingEq := by intro p hp; simp [initState, pendingOf] at hp; simp [initState, hp]
  fedAll := by intro h; simp [initState, prodExhausted] at h
  resultsRange := by simp [initState]
  emittedLen := by simp [initState]
  emittedOk := by intro k o h; simp [initState] at h
  queueLen := by simp [initState]
  semEq := by simp [initState]
  workersLen := by simp [initState]
  queuedPending := by intro i h; simp [initState] at h
  queuedOnce := by intro i; simp [initState]
  heldPending := by
    intro w i h
    rcases h with h | ⟨e, h⟩ <;>
      simp [initState, List.getElem?_replicate] at h
  heldDistinct := by
    intro w w' i h _
    rcases h with h | ⟨e, h⟩ <;>
      simp [initState, List.getElem?_replicate] at h
  heldNotQueued := by intro w i _; simp [initState]
  failingSound := by
    intro w i e h
    simp [initState, List.getElem?_replicate] at h
  finishedEmpty := by intro h; simp [initState] at h
  raisedHead := by intro e h; simp [initState] at h

/-! ### Preservation of the invariant, one step constructor at a time -/

theorem getElem?_append_keep {α : Type} {l : List α} {i : Nat} {x : α} (a : α)
    (h : l[i]? = some x) : (l ++ [a])[i]? = some x := by
  rw [getElem?_append_one]
  simp [Nat.ne_of_lt (getElem?_some_lt h), h]

theorem getElem?_set_keep {α : Type} {l : List α} {i idx : Nat} {x : α} (a : α)
    (hidx : idx < l.length) (hne : i ≠ idx) (h : l[i]? = some x) :
    (l.set idx a)[i]? = some x := by
  rw [getElem?_set_split _ _ _ _ hidx]
  simp [hne, h]

section Preservation

variable {Q R E : Type} {qs : List Q} {engine : Q → Except E R} {cpus : Nat}
variable {s : DispatchState Q R E}

theorem inv_putChore {q : Q} {pending : List Q}
    (hinv : Inv qs engine cpus s)
    (hprod : s.prod = .feeding (q :: pending))
    (hroom : s.queryQueue.length < cpus) :
    Inv qs engine cpus
      { s with
        chores := s.chores ++ [Chore.make q]
        queryQueue := s.queryQueue ++ [some s.chores.length]
        queryAvailable := s.queryAvailable + 1
        queryCount := s.queryCount + 1
        results := s.results ++ [s.chores.length]
        prod := .checkingHead pending } := by
  have hdrop : qs.drop s.chores.length = q :: pending :=
    (hinv.pendingEq (q :: pending) (by rw [hprod]; rfl)).symm
  have hn : s.chores.length < qs.length := drop_cons_lt hdrop
  have hqn : qs[s.chores.length]? = some q := drop_cons_getElem? hdrop
  constructor
  case choresLe => simp; omega
  case choresQuery =>
    intro i ch h
    rw [getElem?_append_one] at h
    split at h
    · next hi =>
      subst hi
      injection h with h
      subst h
      exact hqn
    · exact hinv.choresQuery i ch h
  case statusPending =>
    intro i ch h hev
    rw [getElem?_append_one] at h
    split at h
    · injection h with h
      subst h
      exact ⟨rfl, rfl⟩
    · exact hinv.statusPending i ch h hev
  case statusDone =>
    intro i ch h hev
    rw [getElem?_append_one] at h
    split at h
    · injection h with h
      subst h
      cases hev
    · exact hinv.statusDone i ch h hev
  case pendingEq =>
    intro p hp
    simp only [pendingOf] at hp
    injection hp with hp
    subst hp
    have := drop_cons_tail hdrop
    simp [this]
  case fedAll => intro h; simp [prodExhausted] at h
  case resultsRange =>
    have hcl := hinv.emittedLen
    show s.results ++ [s.chores.length]
        = List.range' s.emitted.length (s.results ++ [s.chores.length]).length
    rw [List.length_append, List.length_singleton, List.range'_1_concat,
      ← hinv.resultsRange]
    congr 1
    congr 1
    omega
  case emittedLen => simp; have := hinv.emittedLen; omega
  case emittedOk => exact hinv.emittedOk
  case queueLen => simp; omega
  case semEq => simp [hinv.semEq]
  case workersLen => exact hinv.workersLen
  case queuedPending =>
    intro i hi
    simp only [List.mem_append, List.mem_singleton] at hi
    rcases hi with hi | hi
    · obtain ⟨ch, hch, hev⟩ := hinv.queuedPending i hi
      exact ⟨ch, getElem?_append_keep _ hch, hev⟩
    · injection hi with hi
      subst hi
      exact ⟨Chore.make q, by simp [List.getElem?_concat_length], rfl⟩
  case queuedOnce =>
    intro i
    rw [List.count_append]
    by_cases hi : i = s.chores.length
    · subst hi
      have hnot : some s.chores.length ∉ s.queryQueue := by
        intro hmem
        obtain ⟨ch, hch, _⟩ := hinv.queuedPending _ hmem
        exact absurd (getElem?_some_lt hch) (lt_irrefl _)
      rw [List.count_eq_zero.mpr hnot]
      simp
    · have h0 : List.count (some i) [some s.chores.length] = 0 := by
        simp [hi]
      rw [h0]
      simpa using hinv.queuedOnce i
  case heldPending =>
    intro w i h
    obtain ⟨ch, hch, hev⟩ := hinv.heldPending w i h
    exact ⟨ch, getElem?_append_keep _ hch, hev⟩
  case heldDistinct => exact hinv.heldDistinct
  case heldNotQueued =>
    intro w i h hmem
    simp only [List.mem_append, List.mem_singleton] at hmem
    rcases hmem with hmem | hmem
    · exact hinv.heldNotQueued w i h hmem
    · injection hmem with hmem
      subst hmem
      obtain ⟨ch, hch, _⟩ := hinv.heldPending w _ h
      exact absurd (getElem?_some_lt hch) (lt_irrefl _)
  case failingSound =>
    intro w i e h
    obtain ⟨ch, hch, herr⟩ := hinv.failingSound w i e h
    exact ⟨ch, getElem?_append_keep _ hch, herr⟩
  case finishedEmpty => intro h; simp at h
  case raisedHead => intro e h; simp at h

theorem inv_headNotReady {pending : List Q}
    (hinv : Inv qs engine cpus s)
    (hprod : s.prod = .checkingHead pending) :
    Inv qs engine cpus { s with prod := .feeding pending } := by
  constructor
  case choresLe => exact hinv.choresLe
  case choresQuery => exact hinv.choresQuery
  case statusPending => exact hinv.statusPending
  case statusDone => exact hinv.statusDone
  case pendingEq =>
    intro p hp
    simp only [pendingOf] at hp
    injection hp with hp
    subst hp
    exact hinv.pendingEq pending (by rw [hprod]; rfl)
  case fedAll => intro h; simp [prodExhausted] at h
  case resultsRange => exact hinv.resultsRange
  case emittedLen => exact hinv.emittedLen
  case emittedOk => exact hinv.emittedOk
  case queueLen => exact hinv.queueLen
  case semEq => exact hinv.semEq
  case workersLen => exact hinv.workersLen
  case queuedPending => exact hinv.queuedPending
  case queuedOnce => exact hinv.queuedOnce
  case heldPending => exact hinv.heldPending
  case heldDistinct => exact hinv.heldDistinct
  case heldNotQueued => exact hinv.heldNotQueued
  case failingSound => exact hinv.failingSound
  case finishedEmpty => intro h; simp at h
  case raisedHead => intro e h; simp at h

theorem inv_yieldCore {idx : Nat} {rest : List Nat} {ch : Chore Q R E}
    (hinv : Inv qs engine cpus s)
    (hres : s.results = idx :: rest)
    (hch : s.chores[idx]? = some ch)
    (hev : ch.event = true)
    (hexc : ch.exception = none) :
    rest = List.range' (s.emitted ++ [ch.hits]).length rest.length
    ∧ (s.emitted ++ [ch.hits]).length + rest.length = s.chores.length
    ∧ ∀ (k : Nat) (o : Option R), (s.emitted ++ [ch.hits])[k]? = some o →
        ∃ (r : R) (q : Q), o = some r ∧ qs[k]? = some q ∧ engine q = .ok r := by
  obtain ⟨hidx, hrest⟩ := head_index hinv hres
  have hlen := hinv.emittedLen
  rw [hres, List.length_cons] at hlen
  refine ⟨?_, ?_, ?_⟩
  · simpa using hrest
  · simp
    omega
  · intro k o h
    rw [getElem?_append_one] at h
    split at h
    · next hk =>
      injection h with h
      obtain ⟨r, hhits, hexc0, hok⟩ | ⟨e0, _, hexc0, _⟩ :=
        hinv.statusDone idx ch hch hev
      · subst hk
        refine ⟨r, ch.query, ?_, ?_, hok⟩
        · rw [← h, hhits]
        · rw [← hidx]
          exact hinv.choresQuery idx ch hch
      · rw [hexc] at hexc0
        cases hexc0
    · exact hinv.emittedOk k o h

theorem inv_headYield {pending : List Q} {idx : Nat} {rest : List Nat}
    {ch : Chore Q R E}
    (hinv : Inv qs engine cpus s)
    (hprod : s.prod = .checkingHead pending)
    (hres : s.results = idx :: rest)
    (hch : s.chores[idx]? = some ch)
    (hev : ch.event = true)
    (hexc : ch.exception = none) :
    Inv qs engine cpus
      { s with
        results := rest
        emitted := s.emitted ++ [ch.hits]
        prod := .feeding pending } := by
  obtain ⟨hrange, hlen, hok⟩ := inv_yieldCore hinv hres hch hev hexc
  constructor
  case choresLe => exact hinv.choresLe
  case choresQuery => exact hinv.choresQuery
  case statusPending => exact hinv.statusPending
  case statusDone => exact hinv.statusDone
  case pendingEq =>
    intro p hp
    simp only [pendingOf] at hp
    injection hp with hp
    subst hp
    exact hinv.pendingEq pending (by rw [hprod]; rfl)
  case fedAll => intro h; simp [prodExhausted] at h
  case resultsRange => exact hrange
  case emittedLen => exact hlen
  case emittedOk => exact hok
  case queueLen => exact hinv.queueLen
  case semEq => exact hinv.semEq
  case workersLen => exact hinv.workersLen
  case queuedPending => exact hinv.queuedPending
  case queuedOnce => exact hinv.queuedOnce
  case heldPending => exact hinv.heldPending
  case heldDistinct => exact hinv.heldDistinct
  case heldNotQueued => exact hinv.heldNotQueued
  case failingSound => exact hinv.failingSound
  case finishedEmpty => intro h; simp at h
  case raisedHead => intro e h; simp at h

theorem inv_drainYield {idx : Nat} {rest : List Nat} {ch : Chore Q R E}
    (hinv : Inv qs engine cpus s)
    (hprod : s.prod = .draining)
    (hres : s.results = idx :: rest)
    (hch : s.chores[idx]? = some ch)
    (hev : ch.event = true)
    (hexc : ch.exception = none) :
    Inv qs engine cpus
      { s with results := rest, emitted := s.emitted ++ [ch.hits] } := by
  obtain ⟨hrange, hlen, hok⟩ := inv_yieldCore hinv hres hch hev hexc
  constructor
  case choresLe => exact hinv.choresLe
  case choresQuery => exact hinv.choresQuery
  case statusPending => exact hinv.statusPending
  case statusDone => exact hinv.statusDone
  case pendingEq =>
    intro p hp
    have hp2 : pendingOf s.prod = some p := hp
    rw [hprod] at hp2
    simp [pendingOf] at hp2
  case fedAll => intro _; exact hinv.fedAll (by rw [hprod]; rfl)
  case resultsRange => exact hrange
  case emittedLen => exact hlen
  case emittedOk => exact hok
  case queueLen => exact hinv.queueLen
  case semEq => exact hinv.semEq
  case workersLen => exact hinv.workersLen
  case queuedPending => exact hinv.queuedPending
  case queuedOnce => exact hinv.queuedOnce
  case heldPending => exact hinv.heldPending
  case heldDistinct => exact hinv.heldDistinct
  case heldNotQueued => exact hinv.heldNotQueued
  case failingSound => exact hinv.failingSound
  case finishedEmpty =>
    intro h
    have h2 : s.prod = .finished := h
    rw [hprod] at h2
    cases h2
  case raisedHead =>
    intro e h
    have h2 : s.prod = .raised e := h
    rw [hprod] at h2
    cases h2

theorem inv_raise {idx : Nat} {rest : List Nat} {ch : Chore Q R E} {e : E}
    (hinv : Inv qs engine cpus s)
    (hres : s.results = idx :: rest)
    (hch : s.chores[idx]? = some ch)
    (hexc : ch.exception = some e) :
    Inv qs engine cpus { s with killSwitch := true, prod := .raised e } := by
  constructor
  case choresLe => exact hinv.choresLe
  case choresQuery => exact hinv.choresQuery
  case statusPending => exact hinv.statusPending
  case statusDone => exact hinv.statusDone
  case pendingEq => intro p hp; simp [pendingOf] at hp
  case fedAll => intro h; simp [prodExhausted] at h
  case resultsRange => exact hinv.resultsRange
  case emittedLen => exact hinv.emittedLen
  case emittedOk => exact hinv.emittedOk
  case queueLen => exact hinv.queueLen
  case semEq => exact hinv.semEq
  case workersLen => exact hinv.workersLen
  case queuedPending => exact hinv.queuedPending
  case queuedOnce => exact hinv.queuedOnce
  case heldPending => exact hinv.heldPending
  case heldDistinct => exact hinv.heldDistinct
  case heldNotQueued => exact hinv.heldNotQueued
  case failingSound => exact hinv.failingSound
  case finishedEmpty => intro h; simp at h
  case raisedHead =>
    intro e' h
    have he : e = e' := by injection h
    obtain ⟨hidx, _⟩ := head_index hinv hres
    subst he
    refine ⟨ch, ?_, hexc⟩
    rw [← hidx]
    exact hch

theorem inv_startPoison
    (hinv : Inv qs engine cpus s)
    (hprod : s.prod = .feeding []) :
    Inv qs engine cpus { s with prod := .poisoning cpus } := by
  constructor
  case choresLe => exact hinv.choresLe
  case choresQuery => exact hinv.choresQuery
  case statusPending => exact hinv.statusPending
  case statusDone => exact hinv.statusDone
  case pendingEq => intro p hp; simp [pendingOf] at hp
  case fedAll =>
    intro _
    have hdrop : qs.drop s.chores.length = [] :=
      (hinv.pendingEq [] (by rw [hprod]; rfl)).symm
    have h2 := hinv.choresLe
    have h1 : qs.length ≤ s.chores.length := List.drop_eq_nil_iff.mp hdrop
    show s.chores.length = qs.length
    omega
  case resultsRange => exact hinv.resultsRange
  case emittedLen => exact hinv.emittedLen
  case emittedOk => exact hinv.emittedOk
  case queueLen => exact hinv.queueLen
  case semEq => exact hinv.semEq
  case workersLen => exact hinv.workersLen
  case queuedPending => exact hinv.queuedPending
  case queuedOnce => exact hinv.queuedOnce
  case heldPending => exact hinv.heldPending
  case heldDistinct => exact hinv.heldDistinct
  case heldNotQueued => exact hinv.heldNotQueued
  case failingSound => exact hinv.failingSound
  case finishedEmpty => intro h; simp at h
  case raisedHead => intro e h; simp at h

theorem inv_putPill {k : Nat}
    (hinv : Inv qs engine cpus s)
    (hprod : s.prod = .poisoning (k + 1))
    (hroom : s.queryQueue.length < cpus) :
    Inv qs engine cpus
      { s with
        queryQueue := s.queryQueue ++ [none]
        queryAvailable := s.queryAvailable + 1
        prod := .poisoning k } := by
  constructor
  case choresLe => exact hinv.choresLe
  case choresQuery => exact hinv.choresQuery
  case statusPending => exact hinv.statusPending
  case statusDone => exact hinv.statusDone
  case pendingEq => intro p hp; simp [pendingOf] at hp
  case fedAll => intro _; exact hinv.fedAll (by rw [hprod]; rfl)
  case resultsRange => exact hinv.resultsRange
  case emittedLen => exact hinv.emittedLen
  case emittedOk => exact hinv.emittedOk
  case queueLen => simp; omega
  case semEq => simp [hinv.semEq]
  case workersLen => exact hinv.workersLen
  case queuedPending =>
    intro i hi
    simp only [List.mem_append, List.mem_singleton] at hi
    rcases hi with hi | hi
    · exact hinv.queuedPending i hi
    · cases hi
  case queuedOnce =>
    intro i
    rw [List.count_append]
    simpa using hinv.queuedOnce i
  case heldPending => exact hinv.heldPending
  case heldDistinct => exact hinv.heldDistinct
  case heldNotQueued =>
    intro w i h hmem
    simp only [List.mem_append, List.mem_singleton] at hmem
    rcases hmem with hmem | hmem
    · exact hinv.heldNotQueued w i h hmem
    · cases hmem
  case failingSound => exact hinv.failingSound
  case finishedEmpty => intro h; simp at h
  case raisedHead => intro e h; simp at h

theorem inv_startDrain
    (hinv : Inv qs engine cpus s)
    (hprod : s.prod = .poisoning 0) :
    Inv qs engine cpus { s with prod := .draining } := by
  constructor
  case choresLe => exact hinv.choresLe
  case choresQuery => exact hinv.choresQuery
  case statusPending => exact hinv.statusPending
  case statusDone => exact hinv.statusDone
  case pendingEq => intro p hp; simp [pendingOf] at hp
  case fedAll => intro _; exact hinv.fedAll (by rw [hprod]; rfl)
  case resultsRange => exact hinv.resultsRange
  case emittedLen => exact hinv.emittedLen
  case emittedOk => exact hinv.emittedOk
  case queueLen => exact hinv.queueLen
  case semEq => exact hinv.semEq
  case workersLen => exact hinv.workersLen
  case queuedPending => exact hinv.queuedPending
  case queuedOnce => exact hinv.queuedOnce
  case heldPending => exact hinv.heldPending
  case heldDistinct => exact hinv.heldDistinct
  case heldNotQueued => exact hinv.heldNotQueued
  case failingSound => exact hinv.failingSound
  case finishedEmpty => intro h; simp at h
  case raisedHead => intro e h; simp at h

theorem inv_drainDone
    (hinv : Inv qs engine cpus s)
    (hprod : s.prod = .draining)
    (hres : s.results = []) :
    Inv qs engine cpus { s with prod := .finished } := by
  constructor
  case choresLe => exact hinv.choresLe
  case choresQuery => exact hinv.choresQuery
  case statusPending => exact hinv.statusPending
  case statusDone => exact hinv.statusDone
  case pendingEq => intro p hp; simp [pendingOf] at hp
  case fedAll => intro _; exact hinv.fedAll (by rw [hprod]; rfl)
  case resultsRange => exact hinv.resultsRange
  case emittedLen => exact hinv.emittedLen
  case emittedOk => exact hinv.emittedOk
  case queueLen => exact hinv.queueLen
  case semEq => exact hinv.semEq
  case workersLen => exact hinv.workersLen
  case queuedPending => exact hinv.queuedPending
  case queuedOnce => exact hinv.queuedOnce
  case heldPending => exact hinv.heldPending
  case heldDistinct => exact hinv.heldDistinct
  case heldNotQueued => exact hinv.heldNotQueued
  case failingSound => exact hinv.failingSound
  case finishedEmpty => intro _; exact hres
  case raisedHead => intro e h; simp at h

theorem inv_workerStop {w : Nat}
    (hinv : Inv qs engine cpus s)
    (hw : s.workers[w]? = some .running) :
    Inv qs engine cpus { s with workers := s.workers.set w .stopped } := by
  have hwlt : w < s.workers.length := getElem?_some_lt hw
  constructor
  case choresLe => exact hinv.choresLe
  case choresQuery => exact hinv.choresQuery
  case statusPending => exact hinv.statusPending
  case statusDone => exact hinv.statusDone
  case pendingEq => exact hinv.pendingEq
  case fedAll => exact hinv.fedAll
  case resultsRange => exact hinv.resultsRange
  case emittedLen => exact hinv.emittedLen
  case emittedOk => exact hinv.emittedOk
  case queueLen => exact hinv.queueLen
  case semEq => exact hinv.semEq
  case workersLen =>
    show (s.workers.set w WState.stopped).length = cpus
    rw [List.length_set]
    exact hinv.workersLen
  case queuedPending => exact hinv.queuedPending
  case queuedOnce => exact hinv.queuedOnce
  case heldPending =>
    intro w' i h
    have h' : holdsAt (s.workers.set w WState.stopped) w' i := h
    rw [holdsAt_set _ _ _ _ _ hwlt] at h'
    split at h'
    · rcases h' with h' | ⟨e, h'⟩ <;> cases h'
    · exact hinv.heldPending w' i h'
  case heldDistinct =>
    intro w1 w2 i h1 h2
    have h1' : holdsAt (s.workers.set w WState.stopped) w1 i := h1
    have h2' : holdsAt (s.workers.set w WState.stopped) w2 i := h2
    rw [holdsAt_set _ _ _ _ _ hwlt] at h1' h2'
    split at h1'
    · rcases h1' with h' | ⟨e, h'⟩ <;> cases h'
    · split at h2'
      · rcases h2' with h' | ⟨e, h'⟩ <;> cases h'
      · exact hinv.heldDistinct w1 w2 i h1' h2'
  case heldNotQueued =>
    intro w' i h hmem
    have h' : holdsAt (s.workers.set w WState.stopped) w' i := h
    rw [holdsAt_set _ _ _ _ _ hwlt] at h'
    split at h'
    · rcases h' with h' | ⟨e, h'⟩ <;> cases h'
    · exact hinv.heldNotQueued w' i h' hmem
  case failingSound =>
    intro w' i e h
    have h' : (s.workers.set w WState.stopped)[w']? = some (WState.failing i e) := h
    rw [getElem?_set_split _ _ _ _ hwlt] at h'
    split at h'
    · simp at h'
    · exact hinv.failingSound w' i e h'
  case finishedEmpty => exact hinv.finishedEmpty
  case raisedHead => exact hinv.raisedHead

theorem inv_workerDequeuePill {w : Nat} {qrest : List (Option Nat)}
    (hinv : Inv qs engine cpus s)
    (hw : s.workers[w]? = some .running)
    (hq : s.queryQueue = none :: qrest) :
    Inv qs engine cpus
      { s with
        queryAvailable := s.queryAvailable - 1
        queryQueue := qrest
        workers := s.workers.set w .stopped } := by
  have hwlt : w < s.workers.length := getElem?_some_lt hw
  constructor
  case choresLe => exact hinv.choresLe
  case choresQuery => exact hinv.choresQuery
  case statusPending => exact hinv.statusPending
  case statusDone => exact hinv.statusDone
  case pendingEq => exact hinv.pendingEq
  case fedAll => exact hinv.fedAll
  case resultsRange => exact hinv.resultsRange
  case emittedLen => exact hinv.emittedLen
  case emittedOk => exact hinv.emittedOk
  case queueLen =>
    show qrest.length ≤ cpus
    have h1 := hinv.queueLen
    rw [hq, List.length_cons] at h1
    omega
  case semEq =>
    show s.queryAvailable - 1 = qrest.length
    have h1 := hinv.semEq
    rw [hq, List.length_cons] at h1
    omega
  case workersLen =>
    show (s.workers.set w WState.stopped).length = cpus
    rw [List.length_set]
    exact hinv.workersLen
  case queuedPending =>
    intro i hi
    exact hinv.queuedPending i (by rw [hq]; exact List.mem_cons_of_mem _ hi)
  case queuedOnce =>
    intro i
    have h1 := hinv.queuedOnce i
    rw [hq] at h1
    simp [List.count_cons] at h1
    exact h1
  case heldPending =>
    intro w' i h
    have h' : holdsAt (s.workers.set w WState.stopped) w' i := h
    rw [holdsAt_set _ _ _ _ _ hwlt] at h'
    split at h'
    · rcases h' with h' | ⟨e, h'⟩ <;> cases h'
    · exact hinv.heldPending w' i h'
  case heldDistinct =>
    intro w1 w2 i h1 h2
    have h1' : holdsAt (s.workers.set w WState.stopped) w1 i := h1
    have h2' : holdsAt (s.workers.set w WState.stopped) w2 i := h2
    rw [holdsAt_set _ _ _ _ _ hwlt] at h1' h2'
    split at h1'
    · rcases h1' with h' | ⟨e, h'⟩ <;> cases h'
    · split at h2'
      · rcases h2' with h' | ⟨e, h'⟩ <;> cases h'
      · exact hinv.heldDistinct w1 w2 i h1' h2'
  case heldNotQueued =>
    intro w' i h hmem
    have h' : holdsAt (s.workers.set w WState.stopped) w' i := h
    rw [holdsAt_set _ _ _ _ _ hwlt] at h'
    split at h'
    · rcases h' with h' | ⟨e, h'⟩ <;> cases h'
    · exact hinv.heldNotQueued w' i h' (by rw [hq]; exact List.mem_cons_of_mem _ hmem)
  case failingSound =>
    intro w' i e h
    have h' : (s.workers.set w WState.stopped)[w']? = some (WState.failing i e) := h
    rw [getElem?_set_split _ _ _ _ hwlt] at h'
    split at h'
    · simp at h'
    · exact hinv.failingSound w' i e h'
  case finishedEmpty => exact hinv.finishedEmpty
  case raisedHead => exact hinv.raisedHead

theorem inv_workerDequeueChore {w idx : Nat} {qrest : List (Option Nat)}
    (hinv : Inv qs engine cpus s)
    (hw : s.workers[w]? = some .running)
    (hq : s.queryQueue = some idx :: qrest) :
    Inv qs engine cpus
      { s with
        queryAvailable := s.queryAvailable - 1
        queryQueue := qrest
        workers := s.workers.set w (.working idx) } := by
  have hwlt : w < s.workers.length := getElem?_some_lt hw
  have hfront : some idx ∈ s.queryQueue := by rw [hq]; exact List.mem_cons_self _ _
  have hnotrest : some idx ∉ qrest := by
    have h1 := hinv.queuedOnce idx
    rw [hq] at h1
    simp [List.count_cons] at h1
    exact List.count_eq_zero.mp (by omega)
  constructor
  case choresLe => exact hinv.choresLe
  case choresQuery => exact hinv.choresQuery
  case statusPending => exact hinv.statusPending
  case statusDone => exact hinv.statusDone
  case pendingEq => exact hinv.pendingEq
  case fedAll => exact hinv.fedAll
  case resultsRange => exact hinv.resultsRange
  case emittedLen => exact hinv.emittedLen
  case emittedOk => exact hinv.emittedOk
  case queueLen =>
    show qrest.length ≤ cpus
    have h1 := hinv.queueLen
    rw [hq, List.length_cons] at h1
    omega
  case semEq =>
    show s.queryAvailable - 1 = qrest.length
    have h1 := hinv.semEq
    rw [hq, List.length_cons] at h1
    omega
  case workersLen =>
    show (s.workers.set w (WState.working idx)).length = cpus
    rw [List.length_set]
    exact hinv.workersLen
  case queuedPending =>
    intro i hi
    exact hinv.queuedPending i (by rw [hq]; exact List.mem_cons_of_mem _ hi)
  case queuedOnce =>
    intro i
    have h1 := hinv.queuedOnce i
    rw [hq, List.count_cons] at h1
    show qrest.count (some i) ≤ 1
    omega
  case heldPending =>
    intro w' i h
    have h' : holdsAt (s.workers.set w (WState.working idx)) w' i := h
    rw [holdsAt_set _ _ _ _ _ hwlt] at h'
    split at h'
    · rcases h' with h' | ⟨e, h'⟩
      · injection h' with h'
        subst h'
        exact hinv.queuedPending idx hfront
      · cases h'
    · exact hinv.heldPending w' i h'
  case heldDistinct =>
    intro w1 w2 i h1 h2
    have h1' : holdsAt (s.workers.set w (WState.working idx)) w1 i := h1
    have h2' : holdsAt (s.workers.set w (WState.working idx)) w2 i := h2
    rw [holdsAt_set _ _ _ _ _ hwlt] at h1' h2'
    split at h1'
    · next hw1 =>
      split at h2'
      · next hw2 => rw [hw1, hw2]
      · rcases h1' with h1' | ⟨e, h1'⟩
        · injection h1' with h1'
          subst h1'
          exact absurd hfront (hinv.heldNotQueued w2 idx h2')
        · cases h1'
    · split at h2'
      · rcases h2' with h2' | ⟨e, h2'⟩
        · injection h2' with h2'
          subst h2'
          exact absurd hfront (hinv.heldNotQueued w1 idx h1')
        · cases h2'
      · exact hinv.heldDistinct w1 w2 i h1' h2'
  case heldNotQueued =>
    intro w' i h hmem
    have h' : holdsAt (s.workers.set w (WState.working idx)) w' i := h
    rw [holdsAt_set _ _ _ _ _ hwlt] at h'
    split at h'
    · rcases h' with h' | ⟨e, h'⟩
      · injection h' with h'
        subst h'
        exact hnotrest hmem
      · cases h'
    · exact hinv.heldNotQueued w' i h' (by rw [hq]; exact List.mem_cons_of_mem _ hmem)
  case failingSound =>
    intro w' i e h
    have h' : (s.workers.set w (WState.working idx))[w']? = some (WState.failing i e) := h
    rw [getElem?_set_split _ _ _ _ hwlt] at h'
    split at h'
    · simp at h'
    · exact hinv.failingSound w' i e h'
  case finishedEmpty => exact hinv.finishedEmpty
  case raisedHead => exact hinv.raisedHead

theorem inv_workerComplete {w idx : Nat} {ch : Chore Q R E} {r : R}
    (hinv : Inv qs engine cpus s)
    (hw : s.workers[w]? = some (.working idx))
    (hch : s.chores[idx]? = some ch)
    (hrun : engine ch.query = .ok r) :
    Inv qs engine cpus
      { s with
        chores := s.chores.set idx (ch.complete r)
        workers := s.workers.set w .running } := by
  have hwlt : w < s.workers.length := getElem?_some_lt hw
  have hidxlt : idx < s.chores.length := getElem?_some_lt hch
  have hheld : holdsAt s.workers w idx := Or.inl hw
  have hev : ch.event = false := by
    obtain ⟨ch0, hch0, hev0⟩ := hinv.heldPending w idx hheld
    rw [hch] at hch0
    injection hch0 with hch0
    rw [← hch0] at hev0
    exact hev0
  obtain ⟨hhits, hexc⟩ := hinv.statusPending idx ch hch hev
  have hnq : some idx ∉ s.queryQueue := hinv.heldNotQueued w idx hheld
  constructor
  case choresLe =>
    show (s.chores.set idx (ch.complete r)).length ≤ qs.length
    rw [List.length_set]
    exact hinv.choresLe
  case choresQuery =>
    intro i chx h
    have h' : (s.chores.set idx (ch.complete r))[i]? = some chx := h
    rw [getElem?_set_split _ _ _ _ hidxlt] at h'
    split at h'
    · next hi =>
      subst hi
      injection h' with h'
      subst h'
      exact hinv.choresQuery _ ch hch
    · exact hinv.choresQuery i chx h'
  case statusPending =>
    intro i chx h hevx
    have h' : (s.chores.set idx (ch.complete r))[i]? = some chx := h
    rw [getElem?_set_split _ _ _ _ hidxlt] at h'
    split at h'
    · injection h' with h'
      subst h'
      simp [Chore.complete] at hevx
    · exact hinv.statusPending i chx h' hevx
  case statusDone =>
    intro i chx h hevx
    have h' : (s.chores.set idx (ch.complete r))[i]? = some chx := h
    rw [getElem?_set_split _ _ _ _ hidxlt] at h'
    split at h'
    · injection h' with h'
      subst h'
      exact Or.inl ⟨r, rfl, hexc, hrun⟩
    · exact hinv.statusDone i chx h' hevx
  case pendingEq =>
    intro p hp
    have hp' : pendingOf s.prod = some p := hp
    show p = qs.drop (s.chores.set idx (ch.complete r)).length
    rw [List.length_set]
    exact hinv.pendingEq p hp'
  case fedAll =>
    intro h
    have h' : prodExhausted s.prod = true := h
    show (s.chores.set idx (ch.complete r)).length = qs.length
    rw [List.length_set]
    exact hinv.fedAll h'
  case resultsRange => exact hinv.resultsRange
  case emittedLen =>
    show s.emitted.length + s.results.length = (s.chores.set idx (ch.complete r)).length
    rw [List.length_set]
    exact hinv.emittedLen
  case emittedOk => exact hinv.emittedOk
  case queueLen => exact hinv.queueLen
  case semEq => exact hinv.semEq
  case workersLen =>
    show (s.workers.set w WState.running).length = cpus
    rw [List.length_set]
    exact hinv.workersLen
  case queuedPending =>
    intro i hi
    obtain ⟨chq, hchq, hevq⟩ := hinv.queuedPending i hi
    have hne : i ≠ idx := fun he => hnq (he ▸ hi)
    exact ⟨chq, getElem?_set_keep _ hidxlt hne hchq, hevq⟩
  case queuedOnce => exact hinv.queuedOnce
  case heldPending =>
    intro w' i h
    have h' : holdsAt (s.workers.set w WState.running) w' i := h
    rw [holdsAt_set _ _ _ _ _ hwlt] at h'
    split at h'
    · rcases h' with h' | ⟨e', h'⟩ <;> cases h'
    · next hnew =>
      obtain ⟨chh, hchh, hevh⟩ := hinv.heldPending w' i h'
      have hne : i ≠ idx := by
        intro he
        subst he
        exact hnew (hinv.heldDistinct w' w i h' hheld)
      exact ⟨chh, getElem?_set_keep _ hidxlt hne hchh, hevh⟩
  case heldDistinct =>
    intro w1 w2 i h1 h2
    have h1' : holdsAt (s.workers.set w WState.running) w1 i := h1
    have h2' : holdsAt (s.workers.set w WState.running) w2 i := h2
    rw [holdsAt_set _ _ _ _ _ hwlt] at h1' h2'
    split at h1'
    · rcases h1' with h' | ⟨e', h'⟩ <;> cases h'
    · split at h2'
      · rcases h2' with h' | ⟨e', h'⟩ <;> cases h'
      · exact hinv.heldDistinct w1 w2 i h1' h2'
  case heldNotQueued =>
    intro w' i h hmem
    have h' : holdsAt (s.workers.set w WState.running) w' i := h
    rw [holdsAt_set _ _ _ _ _ hwlt] at h'
    split at h'
    · rcases h' with h' | ⟨e', h'⟩ <;> cases h'
    · exact hinv.heldNotQueued w' i h' hmem
  case failingSound =>
    intro w' i e' h
    have h' : (s.workers.set w WState.running)[w']? = some (WState.failing i e') := h
    rw [getElem?_set_split _ _ _ _ hwlt] at h'
    split at h'
    · simp at h'
    · obtain ⟨chf, hchf, herrf⟩ := hinv.failingSound w' i e' h'
      have hne : i ≠ idx := by
        intro he
        subst he
        have hww : w' = w := hinv.heldDistinct w' w i (Or.inr ⟨e', h'⟩) hheld
        rw [hww, hw] at h'
        cases h'
      exact ⟨chf, getElem?_set_keep _ hidxlt hne hchf, herrf⟩
  case finishedEmpty => exact hinv.finishedEmpty
  case raisedHead =>
    intro e h
    have h2 : s.prod = .raised e := h
    obtain ⟨chr, hchr, hexcr⟩ := hinv.raisedHead e h2
    have hne : s.emitted.length ≠ idx := by
      intro he
      rw [he, hch] at hchr
      injection hchr with hh
      rw [← hh, hexc] at hexcr
      cases hexcr
    exact ⟨chr, getElem?_set_keep _ hidxlt hne hchr, hexcr⟩

theorem inv_workerKill {w idx : Nat} {ch : Chore Q R E} {e : E}
    (hinv : Inv qs engine cpus s)
    (hw : s.workers[w]? = some (.working idx))
    (hch : s.chores[idx]? = some ch)
    (hrun : engine ch.query = .error e) :
    Inv qs engine cpus
      { s with
        killSwitch := true
        workers := s.workers.set w (.failing idx e) } := by
  have hwlt : w < s.workers.length := getElem?_some_lt hw
  have hheld : holdsAt s.workers w idx := Or.inl hw
  constructor
  case choresLe => exact hinv.choresLe
  case choresQuery => exact hinv.choresQuery
  case statusPending => exact hinv.statusPending
  case statusDone => exact hinv.statusDone
  case pendingEq => exact hinv.pendingEq
  case fedAll => exact hinv.fedAll
  case resultsRange => exact hinv.resultsRange
  case emittedLen => exact hinv.emittedLen
  case emittedOk => exact hinv.emittedOk
  case queueLen => exact hinv.queueLen
  case semEq => exact hinv.semEq
  case workersLen =>
    show (s.workers.set w (WState.failing idx e)).length = cpus
    rw [List.length_set]
    exact hinv.workersLen
  case queuedPending => exact hinv.queuedPending
  case queuedOnce => exact hinv.queuedOnce
  case heldPending =>
    intro w' i h
    have h' : holdsAt (s.workers.set w (WState.failing idx e)) w' i := h
    rw [holdsAt_set _ _ _ _ _ hwlt] at h'
    split at h'
    · rcases h' with h' | ⟨e', h'⟩
      · cases h'
      · injection h' with h1 h2
        subst h1
        exact hinv.heldPending w idx hheld
    · exact hinv.heldPending w' i h'
  case heldDistinct =>
    intro w1 w2 i h1 h2
    have h1' : holdsAt (s.workers.set w (WState.failing idx e)) w1 i := h1
    have h2' : holdsAt (s.workers.set w (WState.failing idx e)) w2 i := h2
    rw [holdsAt_set _ _ _ _ _ hwlt] at h1' h2'
    split at h1'
    · next hw1 =>
      split at h2'
      · next hw2 => rw [hw1, hw2]
      · next hw2 =>
        rcases h1' with h' | ⟨e', h'⟩
        · cases h'
        · injection h' with h1x h2x
          subst h1x
          exact absurd (hinv.heldDistinct w2 w idx h2' hheld) hw2
    · next hw1 =>
      split at h2'
      · rcases h2' with h' | ⟨e', h'⟩
        · cases h'
        · injection h' with h1x h2x
          subst h1x
          exact absurd (hinv.heldDistinct w1 w idx h1' hheld) hw1
      · exact hinv.heldDistinct w1 w2 i h1' h2'
  case heldNotQueued =>
    intro w' i h hmem
    have h' : holdsAt (s.workers.set w (WState.failing idx e)) w' i := h
    rw [holdsAt_set _ _ _ _ _ hwlt] at h'
    split at h'
    · rcases h' with h' | ⟨e', h'⟩
      · cases h'
      · injection h' with h1 h2
        subst h1
        exact hinv.heldNotQueued w idx hheld hmem
    · exact hinv.heldNotQueued w' i h' hmem
  case failingSound =>
    intro w' i e' h
    have h' : (s.workers.set w (WState.failing idx e))[w']? = some (WState.failing i e') := h
    rw [getElem?_set_split _ _ _ _ hwlt] at h'
    split at h'
    · injection h' with h'
      injection h' with h1 h2
      subst h1
      subst h2
      exact ⟨ch, hch, hrun⟩
    · exact hinv.failingSound w' i e' h'
  case finishedEmpty => exact hinv.finishedEmpty
  case raisedHead => exact hinv.raisedHead

theorem inv_workerFail {w idx : Nat} {e : E} {ch : Chore Q R E}
    (hinv : Inv qs engine cpus s)
    (hw : s.workers[w]? = some (.failing idx e))
    (hch : s.chores[idx]? = some ch) :
    Inv qs engine cpus
      { s with
        chores := s.chores.set idx (ch.fail e)
        workers := s.workers.set w .running } := by
  have hwlt : w < s.workers.length := getElem?_some_lt hw
  have hidxlt : idx < s.chores.length := getElem?_some_lt hch
  have hheld : holdsAt s.workers w idx := Or.inr ⟨e, hw⟩
  have hev : ch.event = false := by
    obtain ⟨ch0, hch0, hev0⟩ := hinv.heldPending w idx hheld
    rw [hch] at hch0
    injection hch0 with hch0
    rw [← hch0] at hev0
    exact hev0
  obtain ⟨hhits, hexc⟩ := hinv.statusPending idx ch hch hev
  have herr : engine ch.query = .error e := by
    obtain ⟨chf, hchf, herrf⟩ := hinv.failingSound w idx e hw
    rw [hch] at hchf
    injection hchf with hchf
    rw [← hchf] at herrf
    exact herrf
  have hnq : some idx ∉ s.queryQueue := hinv.heldNotQueued w idx hheld
  constructor
  case choresLe =>
    show (s.chores.set idx (ch.fail e)).length ≤ qs.length
    rw [List.length_set]
    exact hinv.choresLe
  case choresQuery =>
    intro i chx h
    have h' : (s.chores.set idx (ch.fail e))[i]? = some chx := h
    rw [getElem?_set_split _ _ _ _ hidxlt] at h'
    split at h'
    · next hi =>
      subst hi
      injection h' with h'
      subst h'
      exact hinv.choresQuery _ ch hch
    · exact hinv.choresQuery i chx h'
  case statusPending =>
    intro i chx h hevx
    have h' : (s.chores.set idx (ch.fail e))[i]? = some chx := h
    rw [getElem?_set_split _ _ _ _ hidxlt] at h'
    split at h'
    · injection h' with h'
      subst h'
      simp [Chore.fail] at hevx
    · exact hinv.statusPending i chx h' hevx
  case statusDone =>
    intro i chx h hevx
    have h' : (s.chores.set idx (ch.fail e))[i]? = some chx := h
    rw [getElem?_set_split _ _ _ _ hidxlt] at h'
    split at h'
    · injection h' with h'
      subst h'
      refine Or.inr ⟨e, ?_, rfl, herr⟩
      show ch.hits = none
      exact hhits
    · exact hinv.statusDone i chx h' hevx
  case pendingEq =>
    intro p hp
    have hp' : pendingOf s.prod = some p := hp
    show p = qs.drop (s.chores.set idx (ch.fail e)).length
    rw [List.length_set]
    exact hinv.pendingEq p hp'
  case fedAll =>
    intro h
    have h' : prodExhausted s.prod = true := h
    show (s.chores.set idx (ch.fail e)).length = qs.length
    rw [List.length_set]
    exact hinv.fedAll h'
  case resultsRange => exact hinv.resultsRange
  case emittedLen =>
    show s.emitted.length + s.results.length = (s.chores.set idx (ch.fail e)).length
    rw [List.length_set]
    exact hinv.emittedLen
  case emittedOk => exact hinv.emittedOk
  case queueLen => exact hinv.queueLen
  case semEq => exact hinv.semEq
  case workersLen =>
    show (s.workers.set w WState.running).length = cpus
    rw [List.length_set]
    exact hinv.workersLen
  case queuedPending =>
    intro i hi
    obtain ⟨chq, hchq, hevq⟩ := hinv.queuedPending i hi
    have hne : i ≠ idx := fun he => hnq (he ▸ hi)
    exact ⟨chq, getElem?_set_keep _ hidxlt hne hchq, hevq⟩
  case queuedOnce => exact hinv.queuedOnce
  case heldPending =>
    intro w' i h
    have h' : holdsAt (s.workers.set w WState.running) w' i := h
    rw [holdsAt_set _ _ _ _ _ hwlt] at h'
    split at h'
    · rcases h' with h' | ⟨e', h'⟩ <;> cases h'
    · next hnew =>
      obtain ⟨chh, hchh, hevh⟩ := hinv.heldPending w' i h'
      have hne : i ≠ idx := by
        intro he
        subst he
        exact hnew (hinv.heldDistinct w' w i h' hheld)
      exact ⟨chh, getElem?_set_keep _ hidxlt hne hchh, hevh⟩
  case heldDistinct =>
    intro w1 w2 i h1 h2
    have h1' : holdsAt (s.workers.set w WState.running) w1 i := h1
    have h2' : holdsAt (s.workers.set w WState.running) w2 i := h2
    rw [holdsAt_set _ _ _ _ _ hwlt] at h1' h2'
    split at h1'
    · rcases h1' with h' | ⟨e', h'⟩ <;> cases h'
    · split at h2'
      · rcases h2' with h' | ⟨e', h'⟩ <;> cases h'
      · exact hinv.heldDistinct w1 w2 i h1' h2'
  case heldNotQueued =>
    intro w' i h hmem
    have h' : holdsAt (s.workers.set w WState.running) w' i := h
    rw [holdsAt_set _ _ _ _ _ hwlt] at h'
    split at h'
    · rcases h' with h' | ⟨e', h'⟩ <;> cases h'
    · exact hinv.heldNotQueued w' i h' hmem
  case failingSound =>
    intro w' i e' h
    have h' : (s.workers.set w WState.running)[w']? = some (WState.failing i e') := h
    rw [getElem?_set_split _ _ _ _ hwlt] at h'
    split at h'
    · simp at h'
    · next hnew =>
      obtain ⟨chf, hchf, herrf⟩ := hinv.failingSound w' i e' h'
      have hne : i ≠ idx := by
        intro he
        subst he
        exact hnew (hinv.heldDistinct w' w _ (Or.inr ⟨e', h'⟩) hheld)
      exact ⟨chf, getElem?_set_keep _ hidxlt hne hchf, herrf⟩
  case finishedEmpty => exact hinv.finishedEmpty
  case raisedHead =>
    intro e0 h
    have h2 : s.prod = .raised e0 := h
    obtain ⟨chr, hchr, hexcr⟩ := hinv.raisedHead e0 h2
    have hne : s.emitted.length ≠ idx := by
      intro he
      rw [he, hch] at hchr
      injection hchr with hh
      rw [← hh, hexc] at hexcr
      cases hexcr
    exact ⟨chr, getElem?_set_keep _ hidxlt hne hchr, hexcr⟩

/-- The invariant is preserved by every step. -/
theorem inv_step {l : Label} {t : DispatchState Q R E}
    (hinv : Inv qs engine cpus s) (hst : Step engine cpus s l t) :
    Inv qs engine cpus t := by
  cases hst with
  | putChore hprod hroom => exact inv_putChore hinv hprod hroom
  | headNotReady hprod hres hch hev => exact inv_headNotReady hinv hprod
  | headYield hprod hres hch hev hexc =>
    exact inv_headYield hinv hprod hres hch hev hexc
  | headRaise hprod hres hch hev hexc => exact inv_raise hinv hres hch hexc
  | startPoison hprod => exact inv_startPoison hinv hprod
  | putPill hprod hroom => exact inv_putPill hinv hprod hroom
  | startDrain hprod => exact inv_startDrain hinv hprod
  | drainYield hprod hres hch hev hexc =>
    exact inv_drainYield hinv hprod hres hch hev hexc
  | drainRaise hprod hres hch hev hexc => exact inv_raise hinv hres hch hexc
  | drainDone hprod hres => exact inv_drainDone hinv hprod hres
  | workerStopStep hw hkill => exact inv_workerStop hinv hw
  | workerDequeuePill hw hkill hsem hq => exact inv_workerDequeuePill hinv hw hq
  | workerDequeueChore hw hkill hsem hq => exact inv_workerDequeueChore hinv hw hq
  | workerCompleteStep hw hch hrun => exact inv_workerComplete hinv hw hch hrun
  | workerKillStep hw hch hrun => exact inv_workerKill hinv hw hch hrun
  | workerFailStep hw hch => exact inv_workerFail hinv hw hch

/-- The invariant holds in every reachable state. -/
theorem inv_reach {t : DispatchState Q R E}
    (h : Reach engine cpus (initState qs cpus) t) : Inv qs engine cpus t := by
  induction h with
  | refl => exact inv_init qs engine cpus
  | tail h1 h2 ih =>
    obtain ⟨l, hst⟩ := h2
    exact inv_step ih hst

/-- No step ever clears the kill switch. -/
theorem kill_mono {l : Label} {t : DispatchState Q R E}
    (hst : Step engine cpus s l t) (h : s.killSwitch = true) :
    t.killSwitch = true := by
  cases hst <;> first | exact h | rfl

/-- The kill switch stays set along any execution. -/
theorem kill_mono_star {t : DispatchState Q R E}
    (h : Relation.ReflTransGen (StepAny engine cpus) s t)
    (hk : s.killSwitch = true) : t.killSwitch = true := by
  induction h with
  | refl => exact hk
  | tail h1 h2 ih =>
    obtain ⟨l, hst⟩ := h2
    exact kill_mono hst ih

/-- A dequeue step can only happen while the kill switch is clear
(`_BaseWorker.run` re-checks the flag before every acquire). -/
theorem dequeue_needs_live {w : Nat} {o : Option Nat} {t : DispatchState Q R E}
    (hst : Step engine cpus s (.workerDequeue w o) t) :
    s.killSwitch = false := by
  cases hst <;> assumption

/-- Pointwise description of the emitted list: if the engine succeeds on
every already-consumed position, the values yielded so far are exactly the
engine results for the first `s.emitted.length` queries, in order. -/
theorem emitted_eq_of_ok {f : Q → R}
    (hinv : Inv qs engine cpus s)
    (hok : ∀ (j : Nat) (q : Q), j < s.emitted.length → qs[j]? = some q →
      engine q = .ok (f q)) :
    s.emitted = (qs.take s.emitted.length).map (fun q => some (f q)) := by
  have hcle : s.emitted.length ≤ qs.length := by
    have h1 := hinv.emittedLen
    have h2 := hinv.choresLe
    omega
  apply List.ext_getElem?
  intro k
  by_cases hk : k < s.emitted.length
  · obtain ⟨o, ho⟩ : ∃ o, s.emitted[k]? = some o :=
      ⟨s.emitted[k], List.getElem?_eq_getElem hk⟩
    obtain ⟨r, q, hor, hq, hrun⟩ := hinv.emittedOk k o ho
    have hfr : engine q = .ok (f q) := hok k q hk hq
    rw [hrun] at hfr
    injection hfr with hfr
    rw [ho, List.getElem?_map, List.getElem?_take]
    simp only [hk, if_pos]
    rw [hq]
    simp [hor, hfr]
  · push_neg at hk
    rw [List.getElem?_eq_none hk, List.getElem?_eq_none]
    rw [List.length_map, List.length_take]
    omega

/-- When the generator has finished, every query was consumed. -/
theorem finished_all_consumed
    (hinv : Inv qs engine cpus s) (hfin : s.prod = .finished) :
    s.emitted.length = qs.length := by
  have h1 := hinv.finishedEmpty hfin
  have h2 := hinv.emittedLen
  have h3 := hinv.fedAll (by rw [hfin]; rfl)
  rw [h1] at h2
  simp at h2
  omega

/-- Running `_single_threaded` on an engine that succeeds everywhere returns all
the results in order and raises nothing. -/
theorem singleThreadedRun_ok {f : Q → R}
    (hok : ∀ q ∈ qs, engine q = .ok (f q)) :
    singleThreadedRun engine qs = (qs.map f, none) := by
  induction qs with
  | nil => rfl
  | cons q rest ih =>
    have hq : engine q = .ok (f q) := hok q (List.mem_cons_self q rest)
    have hrest : ∀ q ∈ rest, engine q = .ok (f q) := fun x hx =>
      hok x (List.mem_cons_of_mem _ hx)
    simp [singleThreadedRun, hq, ih hrest]

end Preservation

/-! ### A concrete demonstration run

Two queries `[10, 20]`, two workers, engine `q ↦ q + 1`.  Worker 0
processes query 0 while the producer is still feeding; worker 1 processes
query 1 during the poisoning phase; both workers stop on their poison
pills and the generator finishes having emitted both results in
submission order. -/

/-- A deterministic always-succeeding demo engine. -/
def demoEngine : Nat → Except Nat Nat := fun q => .ok (q + 1)

/-- Demo run, after enqueuing query 0. -/
def demoS1 : DispatchState Nat Nat Nat :=
  ⟨[⟨10, false, none, none⟩], [some 0], 1, false, 1,
    [.running, .running], [0], .checkingHead [20], []⟩

/-- Demo run, after the head-availability check came back negative. -/
def demoS2 : DispatchState Nat Nat Nat :=
  ⟨[⟨10, false, none, none⟩], [some 0], 1, false, 1,
    [.running, .running], [0], .feeding [20], []⟩

/-- Demo run, after enqueuing query 1. -/
def demoS3 : DispatchState Nat Nat Nat :=
  ⟨[⟨10, false, none, none⟩, ⟨20, false, none, none⟩], [some 0, some 1], 2,
    false, 2, [.running, .running], [0, 1], .checkingHead [], []⟩

/-- Demo run, after worker 0 dequeued chore 0. -/
def demoS4 : DispatchState Nat Nat Nat :=
  ⟨[⟨10, false, none, none⟩, ⟨20, false, none, none⟩], [some 1], 1,
    false, 2, [.working 0, .running], [0, 1], .checkingHead [], []⟩

/-- Demo run, after worker 0 completed chore 0. -/
def demoS5 : DispatchState Nat Nat Nat :=
  ⟨[⟨10, true, some 11, none⟩, ⟨20, false, none, none⟩], [some 1], 1,
    false, 2, [.running, .running], [0, 1], .checkingHead [], []⟩

/-- Demo run, after the producer opportunistically yielded result 0. -/
def demoS6 : DispatchState Nat Nat Nat :=
  ⟨[⟨10, true, some 11, none⟩, ⟨20, false, none, none⟩], [some 1], 1,
    false, 2, [.running, .running], [1], .feeding [], [some 11]⟩

/-- Demo run, entering the poisoning phase. -/
def demoS7 : DispatchState Nat Nat Nat :=
  ⟨[⟨10, true, some 11, none⟩, ⟨20, false, none, none⟩], [some 1], 1,
    false, 2, [.running, .running], [1], .poisoning 2, [some 11]⟩

/-- Demo run, after worker 1 dequeued chore 1. -/
def demoS8 : DispatchState Nat Nat Nat :=
  ⟨[⟨10, true, some 11, none⟩, ⟨20, false, none, none⟩], [], 0,
    false, 2, [.running, .working 1], [1], .poisoning 2, [some 11]⟩

/-- Demo run, after worker 1 completed chore 1. -/
def demoS9 : DispatchState Nat Nat Nat :=
  ⟨[⟨10, true, some 11, none⟩, ⟨20, true, some 21, none⟩], [], 0,
    false, 2, [.running, .running], [1], .poisoning 2, [some 11]⟩

/-- Demo run, after the first poison pill. -/
def demoS10 : DispatchState Nat Nat Nat :=
  ⟨[⟨10, true, some 11, none⟩, ⟨20, true, some 21, none⟩], [none], 1,
    false, 2, [.running, .running], [1], .poisoning 1, [some 11]⟩

/-- Demo run, after the second poison pill. -/
def demoS11 : DispatchState Nat Nat Nat :=
  ⟨[⟨10, true, some 11, none⟩, ⟨20, true, some 21, none⟩], [none, none], 2,
    false, 2, [.running, .running], [1], .poisoning 0, [some 11]⟩

/-- Demo run, after worker 0 swallowed its pill and stopped. -/
def demoS12 : DispatchState Nat Nat Nat :=
  ⟨[⟨10, true, some 11, none⟩, ⟨20, true, some 21, none⟩], [none], 1,
    false, 2, [.stopped, .running], [1], .poisoning 0, [some 11]⟩

/-- Demo run, after worker 1 swallowed its pill and stopped. -/
def demoS13 : DispatchState Nat Nat Nat :=
  ⟨[⟨10, true, some 11, none⟩, ⟨20, true, some 21, none⟩], [], 0,
    false, 2, [.stopped, .stopped], [1], .poisoning 0, [some 11]⟩

/-- Demo run, entering the drain phase. -/
def demoS14 : DispatchState Nat Nat Nat :=
  ⟨[⟨10, true, some 11, none⟩, ⟨20, true, some 21, none⟩], [], 0,
    false, 2, [.stopped, .stopped], [1], .draining, [some 11]⟩

/-- Demo run, after draining result 1. -/
def demoS15 : DispatchState Nat Nat Nat :=
  ⟨[⟨10, true, some 11, none⟩, ⟨20, true, some 21, none⟩], [], 0,
    false, 2, [.stopped, .stopped], [], .draining, [some 11, some 21]⟩

/-- Final state of the demo run. -/
def demoFinal : DispatchState Nat Nat Nat :=
  ⟨[⟨10, true, some 11, none⟩, ⟨20, true, some 21, none⟩], [], 0,
    false, 2, [.stopped, .stopped], [], .finished, [some 11, some 21]⟩

/-- The demo run reaches `demoS4`. -/
theorem demoReach4 : Reach demoEngine 2 (initState [10, 20] 2) demoS4 := by
  have h01 : StepAny demoEngine 2 (initState [10, 20] 2) demoS1 :=
    ⟨_, by apply Step.putChore <;> first | rfl | decide⟩
  have h12 : StepAny demoEngine 2 demoS1 demoS2 :=
    ⟨_, by apply Step.headNotReady <;> first | rfl | decide⟩
  have h23 : StepAny demoEngine 2 demoS2 demoS3 :=
    ⟨_, by apply Step.putChore <;> first | rfl | decide⟩
  have h34 : StepAny demoEngine 2 demoS3 demoS4 :=
    ⟨Label.workerDequeue 0 (some 0), by apply Step.workerDequeueChore <;> first | rfl | decide⟩
  exact .head h01 (.head h12 (.head h23 (.head h34 .refl)))

/-- The demo run continues from `demoS4` to its final state. -/
theorem demoReachTail : Reach demoEngine 2 demoS4 demoFinal := by
  have h45 : StepAny demoEngine 2 demoS4 demoS5 :=
    ⟨Label.workerComplete 0,
      @Step.workerCompleteStep Nat Nat Nat demoEngine 2 demoS4 0 0
        ⟨10, false, none, none⟩ 11 rfl rfl rfl⟩
  have h56 : StepAny demoEngine 2 demoS5 demoS6 :=
    ⟨_, @Step.headYield Nat Nat Nat demoEngine 2 demoS5 [] 0 [1]
      ⟨10, true, some 11, none⟩ rfl rfl rfl rfl rfl⟩
  have h67 : StepAny demoEngine 2 demoS6 demoS7 :=
    ⟨_, by apply Step.startPoison <;> first | rfl | decide⟩
  have h78 : StepAny demoEngine 2 demoS7 demoS8 :=
    ⟨Label.workerDequeue 1 (some 1), by apply Step.workerDequeueChore <;> first | rfl | decide⟩
  have h89 : StepAny demoEngine 2 demoS8 demoS9 :=
    ⟨Label.workerComplete 1,
      @Step.workerCompleteStep Nat Nat Nat demoEngine 2 demoS8 1 1
        ⟨20, false, none, none⟩ 21 rfl rfl rfl⟩
  have h910 : StepAny demoEngine 2 demoS9 demoS10 :=
    ⟨_, by apply Step.putPill <;> first | rfl | decide⟩
  have h1011 : StepAny demoEngine 2 demoS10 demoS11 :=
    ⟨_, by apply Step.putPill <;> first | rfl | decide⟩
  have h1112 : StepAny demoEngine 2 demoS11 demoS12 :=
    ⟨Label.workerDequeue 0 none, by apply Step.workerDequeuePill <;> first | rfl | decide⟩
  have h1213 : StepAny demoEngine 2 demoS12 demoS13 :=
    ⟨Label.workerDequeue 1 none, by apply Step.workerDequeuePill <;> first | rfl | decide⟩
  have h1314 : StepAny demoEngine 2 demoS13 demoS14 :=
    ⟨_, by apply Step.startDrain <;> first | rfl | decide⟩
  have h1415 : StepAny demoEngine 2 demoS14 demoS15 :=
    ⟨_, @Step.drainYield Nat Nat Nat demoEngine 2 demoS14 1 []
      ⟨20, true, some 21, none⟩ rfl rfl rfl rfl rfl⟩
  have h1516 : StepAny demoEngine 2 demoS15 demoFinal :=
    ⟨_, by apply Step.drainDone <;> first | rfl | decide⟩
  exact .head h45 (.head h56 (.head h67 (.head h78 (.head h89 (.head h910
    (.head h1011 (.head h1112 (.head h1213 (.head h1314 (.head h1415
      (.head h1516 .refl)))))))))))

/-- The demo run reaches its final state. -/
theorem demoReach : Reach demoEngine 2 (initState [10, 20] 2) demoFinal :=
  Relation.ReflTransGen.trans demoReach4 demoReachTail

/-! ### The claims -/

/-- C1.  Order preservation: for every input sequence of queries and every
pool size, the dispatcher's run yields as its `i`-th element the engine's
result for the `i`-th input query, for all `i`, regardless of the order in
which workers finish.  The pool-size-1 path (`_single_threaded`) yields
`qs.map f` directly; on the multi-threaded path, in every reachable state
(i.e. under every worker interleaving) the emitted list is the
corresponding prefix of `qs.map (some ∘ f)`, and when the generator
finishes it is all of it (`some` is the model's observation of the
`hits` slot read by `_Chore.get`). -/
theorem multi_threaded_order_preservation {Q R E : Type} (qs : List Q)
    (engine : Q → Except E R) (cpus : Nat) (f : Q → R)
    (hok : ∀ q ∈ qs, engine q = .ok (f q)) :
    (singleThreadedRun engine qs).1 = qs.map f
    ∧ ∀ s : DispatchState Q R E, Reach engine cpus (initState qs cpus) s →
        s.emitted = (qs.map (fun q => some (f q))).take s.emitted.length
        ∧ (s.prod = .finished → s.emitted = qs.map (fun q => some (f q))) := by
  constructor
  · rw [singleThreadedRun_ok hok]
  · intro s hs
    have hinv := inv_reach hs
    have hem : s.emitted = (qs.take s.emitted.length).map (fun q => some (f q)) :=
      emitted_eq_of_ok hinv
        (fun j q _ hq => hok q (List.getElem?_mem hq))
    constructor
    · exact hem.trans (by rw [List.map_take])
    · intro hfin
      have hlen := finished_all_consumed hinv hfin
      rw [hem, hlen, List.take_length]

/-- Witness for C1: hypotheses discharged on the concrete demo run
(queries `[10, 20]`, engine `q ↦ q + 1`, two workers), checked at the
final state of an explicit interleaving. -/
theorem multi_threaded_order_preservation_witness :
    (∀ q ∈ [10, 20], demoEngine q = .ok (q + 1))
    ∧ demoFinal.emitted = [10, 20].map (fun q => some (q + 1)) := by
  refine ⟨fun q _ => rfl, ?_⟩
  have h := multi_threaded_order_preservation [10, 20] demoEngine 2
    (fun q => q + 1) (fun q _ => rfl)
  exact (h.2 demoFinal demoReach).2 rfl

/-- C2.  Single-thread equivalence (refinement): with a deterministic
always-succeeding engine, the multi-threaded path emits, in order, exactly
the values that the `_single_threaded` path yields (each wrapped in the
`some` observation of the `hits` slot), and the single-threaded path
raises nothing. -/
theorem single_multi_equiv {Q R E : Type} (qs : List Q)
    (engine : Q → Except E R) (cpus : Nat) (f : Q → R)
    (hok : ∀ q ∈ qs, engine q = .ok (f q)) :
    (singleThreadedRun engine qs).2 = none
    ∧ ∀ s : DispatchState Q R E, Reach engine cpus (initState qs cpus) s →
        s.prod = .finished →
        s.emitted = ((singleThreadedRun engine qs).1).map some := by
  rw [singleThreadedRun_ok hok]
  refine ⟨rfl, ?_⟩
  intro s hs hfin
  have hinv := inv_reach hs
  have hem : s.emitted = (qs.take s.emitted.length).map (fun q => some (f q)) :=
    emitted_eq_of_ok hinv (fun j q _ hq => hok q (List.getElem?_mem hq))
  have hlen := finished_all_consumed hinv hfin
  rw [hem, hlen, List.take_length, List.map_map]
  rfl

/-- Witness for C2: on the demo run, the multi-threaded final emission
equals the single-threaded output, elementwise. -/
theorem single_multi_equiv_witness :
    (∀ q ∈ [10, 20], demoEngine q = .ok (q + 1))
    ∧ demoFinal.emitted = ((singleThreadedRun demoEngine [10, 20]).1).map some := by
  refine ⟨fun q _ => rfl, ?_⟩
  have h := single_multi_equiv [10, 20] demoEngine 2 (fun q => q + 1) (fun q _ => rfl)
  exact h.2 demoFinal demoReach rfl

/-! ### C3: fault isolation and lazy error propagation -/

/-- C3.  If the engine succeeds on every query before position `i` and
raises on the query at position `i`, then whenever the generator
re-raises an exception (`prod = .raised e`), that exception is the one
captured at position `i`, it surfaces exactly at the point where the
caller retrieves the `i`-th element (`emitted.length = i`), and every
earlier query's result was already delivered normally, in order. -/
theorem fault_isolation_lazy_raise {Q R E : Type} (qs : List Q)
    (engine : Q → Except E R) (cpus : Nat) (f : Q → R) (i : Nat) (qi : Q)
    (e0 : E)
    (hqi : qs[i]? = some qi)
    (hok : ∀ (j : Nat) (q : Q), j < i → qs[j]? = some q → engine q = .ok (f q))
    (herr : engine qi = .error e0) :
    ∀ s : DispatchState Q R E, Reach engine cpus (initState qs cpus) s →
      ∀ e, s.prod = .raised e →
        e = e0 ∧ s.emitted.length = i
        ∧ s.emitted = (qs.take i).map (fun q => some (f q)) := by
  intro s hs e hpr
  have hinv := inv_reach hs
  obtain ⟨ch, hch, hexc⟩ := hinv.raisedHead e hpr
  have hev : ch.event = true := by
    cases hevb : ch.event
    · obtain ⟨_, hexc0⟩ := hinv.statusPending _ ch hch hevb
      rw [hexc0] at hexc
      cases hexc
    · rfl
  rcases hinv.statusDone _ ch hch hev with ⟨r, _, hexc0, _⟩ | ⟨e1, hhits, hexc1, herr1⟩
  · rw [hexc0] at hexc
    cases hexc
  · rw [hexc1] at hexc
    injection hexc with he1
    subst he1
    have hq := hinv.choresQuery _ ch hch
    rcases Nat.lt_trichotomy s.emitted.length i with hlt | heq | hgt
    · have hcontra := hok s.emitted.length ch.query hlt hq
      rw [herr1] at hcontra
      cases hcontra
    · have hqq : qi = ch.query := by
        rw [heq, hqi] at hq
        injection hq
      have he0 : e1 = e0 := by
        have h2 := herr
        rw [hqq, herr1] at h2
        injection h2
      refine ⟨he0, heq, ?_⟩
      have hem := emitted_eq_of_ok hinv
        (fun j q hj hqj => hok j q (by omega) hqj)
      rw [heq] at hem
      exact hem
    · obtain ⟨o, ho⟩ : ∃ o, s.emitted[i]? = some o :=
        ⟨s.emitted[i], List.getElem?_eq_getElem hgt⟩
      obtain ⟨r2, q2, _, hq2, hrun2⟩ := hinv.emittedOk i o ho
      rw [hqi] at hq2
      injection hq2 with hq2
      rw [← hq2, herr] at hrun2
      cases hrun2

/-- A demo engine that raises on every query (query `5` ↦ exception `7`). -/
def faultEngine : Nat → Except Nat Nat := fun q => .error (q + 2)

/-- Fault run, after enqueuing query 0. -/
def faultS1 : DispatchState Nat Nat Nat :=
  ⟨[⟨5, false, none, none⟩], [some 0], 1, false, 1,
    [.running, .running], [0], .checkingHead [], []⟩

/-- Fault run, after worker 0 dequeued chore 0. -/
def faultS2 : DispatchState Nat Nat Nat :=
  ⟨[⟨5, false, none, none⟩], [], 0, false, 1,
    [.working 0, .running], [0], .checkingHead [], []⟩

/-- Fault run, after worker 0 set the kill switch (`self.kill()`). -/
def faultS3 : DispatchState Nat Nat Nat :=
  ⟨[⟨5, false, none, none⟩], [], 0, true, 1,
    [.failing 0 7, .running], [0], .checkingHead [], []⟩

/-- Fault run, after worker 0 marked chore 0 failed (`chore.fail(exc)`). -/
def faultS4 : DispatchState Nat Nat Nat :=
  ⟨[⟨5, true, none, some 7⟩], [], 0, true, 1,
    [.running, .running], [0], .checkingHead [], []⟩

/-- Fault run, after the producer re-raised the exception from
`results[0].get()`. -/
def faultS5 : DispatchState Nat Nat Nat :=
  ⟨[⟨5, true, none, some 7⟩], [], 0, true, 1,
    [.running, .running], [0], .raised 7, []⟩

/-- The fault run is a genuine execution of the machine. -/
theorem faultReach : Reach faultEngine 2 (initState [5] 2) faultS5 := by
  have h01 : StepAny faultEngine 2 (initState [5] 2) faultS1 :=
    ⟨_, by apply Step.putChore <;> first | rfl | decide⟩
  have h12 : StepAny faultEngine 2 faultS1 faultS2 :=
    ⟨Label.workerDequeue 0 (some 0),
      by apply Step.workerDequeueChore <;> first | rfl | decide⟩
  have h23 : StepAny faultEngine 2 faultS2 faultS3 :=
    ⟨Label.workerKill 0,
      @Step.workerKillStep Nat Nat Nat faultEngine 2 faultS2 0 0
        ⟨5, false, none, none⟩ 7 rfl rfl rfl⟩
  have h34 : StepAny faultEngine 2 faultS3 faultS4 :=
    ⟨Label.workerFail 0,
      @Step.workerFailStep Nat Nat Nat faultEngine 2 faultS3 0 0 7
        ⟨5, false, none, none⟩ rfl rfl⟩
  have h45 : StepAny faultEngine 2 faultS4 faultS5 :=
    ⟨_, by apply Step.headRaise <;> first | rfl | decide⟩
  exact .head h01 (.head h12 (.head h23 (.head h34 (.head h45 .refl))))

/-- Witness for C3, on the one-query fault run: the exception surfaces at
position 0 with no result delivered before it. -/
theorem fault_isolation_lazy_raise_witness :
    ([5] : List Nat)[0]? = some 5 ∧ faultEngine 5 = .error 7
    ∧ faultS5.emitted.length = 0
    ∧ faultS5.emitted = (([5] : List Nat).take 0).map (fun q => some q) := by
  have h := fault_isolation_lazy_raise [5] faultEngine 2 (fun q => q) 0 5 7 rfl
    (fun j q hj _ => absurd hj (Nat.not_lt_zero j)) rfl
  have h2 := h faultS5 faultReach 7 rfl
  exact ⟨rfl, rfl, h2.2.1, h2.2.2⟩

/-! ### C4: the worker fault policy -/

/-- Once the kill switch is set and worker `w` is in its post-fault state
(`failing`, back at the loop top, or stopped), every step keeps it so. -/
theorem faulted_stable {Q R E : Type} {engine : Q → Except E R} {cpus : Nat}
    {u v : DispatchState Q R E} {l : Label} {w idx : Nat} {e : E}
    (hst : Step engine cpus u l v)
    (hk : u.killSwitch = true)
    (hw : u.workers[w]? = some (.failing idx e) ∨ u.workers[w]? = some .running
      ∨ u.workers[w]? = some .stopped) :
    v.killSwitch = true
    ∧ (v.workers[w]? = some (.failing idx e) ∨ v.workers[w]? = some .running
      ∨ v.workers[w]? = some .stopped) := by
  refine ⟨kill_mono hst hk, ?_⟩
  cases hst with
  | putChore hprod hroom => exact hw
  | headNotReady hprod hres hch hev => exact hw
  | headYield hprod hres hch hev hexc => exact hw
  | headRaise hprod hres hch hev hexc => exact hw
  | startPoison hprod => exact hw
  | putPill hprod hroom => exact hw
  | startDrain hprod => exact hw
  | drainYield hprod hres hch hev hexc => exact hw
  | drainRaise hprod hres hch hev hexc => exact hw
  | drainDone hprod hres => exact hw
  | workerStopStep hw2 hkill =>
    rename_i w2
    by_cases hww : w = w2
    · subst hww
      right; right
      show (u.workers.set w .stopped)[w]? = some WState.stopped
      rw [getElem?_set_split _ _ _ _ (getElem?_some_lt hw2)]
      simp
    · have heq : (u.workers.set w2 .stopped)[w]? = u.workers[w]? := by
        rw [getElem?_set_split _ _ _ _ (getElem?_some_lt hw2)]
        simp [hww]
      show (u.workers.set w2 WState.stopped)[w]? = some (.failing idx e)
        ∨ (u.workers.set w2 WState.stopped)[w]? = some WState.running
        ∨ (u.workers.set w2 WState.stopped)[w]? = some WState.stopped
      rw [heq]
      exact hw
  | workerDequeuePill hw2 hkill hsem hq =>
    rw [hk] at hkill
    cases hkill
  | workerDequeueChore hw2 hkill hsem hq =>
    rw [hk] at hkill
    cases hkill
  | workerCompleteStep hw2 hch hrun =>
    rename_i w2 idx2 ch r
    by_cases hww : w = w2
    · subst hww
      rcases hw with h | h | h <;> (rw [h] at hw2; simp at hw2)
    · have heq : (u.workers.set w2 .running)[w]? = u.workers[w]? := by
        rw [getElem?_set_split _ _ _ _ (getElem?_some_lt hw2)]
        simp [hww]
      show (u.workers.set w2 WState.running)[w]? = some (.failing idx e)
        ∨ (u.workers.set w2 WState.running)[w]? = some WState.running
        ∨ (u.workers.set w2 WState.running)[w]? = some WState.stopped
      rw [heq]
      exact hw
  | workerKillStep hw2 hch hrun =>
    rename_i w2 idx2 ch e2
    by_cases hww : w = w2
    · subst hww
      rcases hw with h | h | h <;> (rw [h] at hw2; simp at hw2)
    · have heq : (u.workers.set w2 (.failing idx2 e2))[w]? = u.workers[w]? := by
        rw [getElem?_set_split _ _ _ _ (getElem?_some_lt hw2)]
        simp [hww]
      show (u.workers.set w2 (WState.failing idx2 e2))[w]? = some (.failing idx e)
        ∨ (u.workers.set w2 (WState.failing idx2 e2))[w]? = some WState.running
        ∨ (u.workers.set w2 (WState.failing idx2 e2))[w]? = some WState.stopped
      rw [heq]
      exact hw
  | workerFailStep hw2 hch =>
    rename_i w2 idx2 e2 ch
    by_cases hww : w = w2
    · subst hww
      rcases hw with h | h | h
      · right; left
        show (u.workers.set w .running)[w]? = some WState.running
        rw [getElem?_set_split _ _ _ _ (getElem?_some_lt hw2)]
        simp
      · rw [h] at hw2
        simp at hw2
      · rw [h] at hw2
        simp at hw2
    · have heq : (u.workers.set w2 .running)[w]? = u.workers[w]? := by
        rw [getElem?_set_split _ _ _ _ (getElem?_some_lt hw2)]
        simp [hww]
      show (u.workers.set w2 WState.running)[w]? = some (.failing idx e)
        ∨ (u.workers.set w2 WState.running)[w]? = some WState.running
        ∨ (u.workers.set w2 WState.running)[w]? = some WState.stopped
      rw [heq]
      exact hw

/-- C4.  Worker fault policy: a fault step (`self.kill()` after the engine
raised) leaves the kill switch set *before* the WorkItem is touched
(`t.chores = s.chores`); the worker is then in its `failing` state, and in
every later state reachable under any interleaving, that worker can never
dequeue another WorkItem (pill or chore) nor complete one, and the only
thing its pending fail step can do is mark exactly the faulted WorkItem
failed with the captured exception. -/
theorem worker_fault_policy {Q R E : Type} {engine : Q → Except E R}
    {cpus : Nat} {s t : DispatchState Q R E} {w : Nat}
    (hst : Step engine cpus s (.workerKill w) t) :
    t.killSwitch = true
    ∧ t.chores = s.chores
    ∧ ∃ (i : Nat) (e : E),
        t.workers[w]? = some (.failing i e)
        ∧ ∀ u, Relation.ReflTransGen (StepAny engine cpus) t u →
            (∀ (o : Option Nat) (v : DispatchState Q R E),
                ¬ Step engine cpus u (.workerDequeue w o) v)
            ∧ (∀ v : DispatchState Q R E,
                ¬ Step engine cpus u (.workerComplete w) v)
            ∧ (∀ v : DispatchState Q R E,
                Step engine cpus u (.workerFail w) v →
                ∃ ch, u.chores[i]? = some ch
                  ∧ v.chores = u.chores.set i (ch.fail e)) := by
  cases hst with
  | workerKillStep hw hch hrun =>
    rename_i idx ch e
    refine ⟨rfl, rfl, idx, e, ?_, ?_⟩
    · show (s.workers.set w (.failing idx e))[w]? = some (.failing idx e)
      rw [getElem?_set_split _ _ _ _ (getElem?_some_lt hw)]
      simp
    · intro u hu
      have hP : u.killSwitch = true
          ∧ (u.workers[w]? = some (.failing idx e)
            ∨ u.workers[w]? = some .running ∨ u.workers[w]? = some .stopped) := by
        induction hu with
        | refl =>
          refine ⟨rfl, Or.inl ?_⟩
          show (s.workers.set w (.failing idx e))[w]? = some (.failing idx e)
          rw [getElem?_set_split _ _ _ _ (getElem?_some_lt hw)]
          simp
        | tail h1 h2 ih =>
          obtain ⟨l2, hst2⟩ := h2
          exact faulted_stable hst2 ih.1 ih.2
      refine ⟨?_, ?_, ?_⟩
      · intro o v hdq
        have h1 := dequeue_needs_live hdq
        rw [hP.1] at h1
        cases h1
      · intro v hcp
        cases hcp with
        | workerCompleteStep hw2 hch2 hrun2 =>
          rcases hP.2 with h | h | h <;> (rw [h] at hw2; simp at hw2)
      · intro v hfl
        cases hfl with
        | workerFailStep hw2 hch2 =>
          rename_i idx2 e2 ch2
          rcases hP.2 with h | h | h
          · rw [h] at hw2
            injection hw2 with hw2
            injection hw2 with h1 h2
            subst h1
            subst h2
            exact ⟨ch2, hch2, rfl⟩
          · rw [h] at hw2
            simp at hw2
          · rw [h] at hw2
            simp at hw2

/-- Witness for C4: worker 0's fault step on the fault run. -/
theorem worker_fault_policy_witness :
    faultS3.killSwitch = true
    ∧ faultS3.chores = faultS2.chores
    ∧ ∃ (i : Nat) (e : Nat),
        faultS3.workers[0]? = some (.failing i e)
        ∧ ∀ u, Relation.ReflTransGen (StepAny faultEngine 2) faultS3 u →
            (∀ (o : Option Nat) (v : DispatchState Nat Nat Nat),
                ¬ Step faultEngine 2 u (.workerDequeue 0 o) v)
            ∧ (∀ v : DispatchState Nat Nat Nat,
                ¬ Step faultEngine 2 u (.workerComplete 0) v)
            ∧ (∀ v : DispatchState Nat Nat Nat,
                Step faultEngine 2 u (.workerFail 0) v →
                ∃ ch, u.chores[i]? = some ch
                  ∧ v.chores = u.chores.set i (ch.fail e)) :=
  worker_fault_policy
    (show Step faultEngine 2 faultS2 (.workerKill 0) faultS3 from
      @Step.workerKillStep Nat Nat Nat faultEngine 2 faultS2 0 0
        ⟨5, false, none, none⟩ 7 rfl rfl rfl)

/-! ### C5 and C6: pool sizing at construction -/

/-- C5 counterexample: an empty (or otherwise zero-hinted) query stream
does provide a length hint, namely 0 — and then the effective pool size is
the full requested count, not `min(requested, hint)`: with requested 8 and
hint 0, the dispatcher keeps 8, while `min 8 0 = 0`. -/
theorem pool_downsizing_zero_hint_cex :
    dispatcherCpus 8 0 = .ok 8
    ∧ min (8 : Int) 0 = 0
    ∧ dispatcherCpus 8 0 ≠ .ok (min (8 : Int) 0) := by
  refine ⟨rfl, by decide, ?_⟩
  intro h
  have h2 : (8 : Int) = min (8 : Int) 0 := Except.ok.inj h
  rw [show min (8 : Int) 0 = 0 from by decide] at h2
  exact absurd h2 (by decide)

/-- C5 amended: when the requested count is positive and the hint is
positive, the effective pool size is `min(requested, hint)`; a zero hint
leaves the pool at the requested size.  In particular, requesting 8
workers for 2 queries (hint 2) gives an effective size of 2, and the
multi-threaded path spawns exactly that many workers. -/
theorem pool_downsizing (c : Int) (hi : Nat) (hc : 0 < c) (hh : 0 < hi) :
    dispatcherCpus c hi = .ok (min c (hi : Int))
    ∧ dispatcherCpus c 0 = .ok c
    ∧ (initState [0, 1] 2 : DispatchState Nat Nat Nat).workers.length = 2 := by
  refine ⟨?_, ?_, by decide⟩
  · unfold dispatcherCpus
    rw [if_neg (by omega), if_pos hh]
  · unfold dispatcherCpus
    rw [if_neg (by omega)]
    simp

/-- Witness for C5 (amended): requested 8, hint 2 gives effective size 2. -/
theorem pool_downsizing_witness :
    ((0 : Int) < 8 ∧ (0 : Nat) < 2) ∧ dispatcherCpus 8 2 = .ok 2 := by
  refine ⟨⟨by decide, by decide⟩, ?_⟩
  have h := pool_downsizing 8 2 (by decide) (by decide)
  rw [h.1]
  norm_num

/-- C6.  A non-positive worker count is rejected with a `ValueError` at
construction, before any state of a run exists (in the model, before any
`DispatchState` is built, hence before any thread is spawned or query
processed). -/
theorem invalid_cpus_value_error (c : Int) (hint : Nat) (hc : c ≤ 0) :
    dispatcherCpus c hint = .error .valueError := by
  unfold dispatcherCpus
  rw [if_pos hc]

/-- Witness for C6 at `cpus = 0` and `cpus = -2`. -/
theorem invalid_cpus_value_error_witness :
    ((0 : Int) ≤ 0 ∧ dispatcherCpus 0 3 = .error .valueError)
    ∧ ((-2 : Int) ≤ 0 ∧ dispatcherCpus (-2) 5 = .error .valueError) :=
  ⟨⟨by decide, invalid_cpus_value_error 0 3 (by decide)⟩,
   ⟨by decide, invalid_cpus_value_error (-2) 5 (by decide)⟩⟩

/-! ### C7: the WorkItem completion discipline -/

/-- C7 counterexample: `_Chore.complete` performs no already-done check.
Calling it on a chore that is already done succeeds and silently
overwrites the stored result (5 becomes 7), instead of failing. -/
theorem chore_complete_overwrites_cex :
    ((Chore.make 0 : Chore Nat Nat Nat).complete 5).event = true
    ∧ ((Chore.make 0 : Chore Nat Nat Nat).complete 5).hits = some 5
    ∧ (((Chore.make 0 : Chore Nat Nat Nat).complete 5).complete 7).hits = some 7 :=
  ⟨rfl, rfl, rfl⟩

/-- C7 amended: within the dispatcher protocol, each chore's `done` flag
only ever transitions false→true — a done chore is never modified again,
and at the moment of the transition exactly one of result/exception is
set.  (The `complete` operation itself does not fail on a done chore — it
overwrites — but the protocol never calls it twice on the same chore.) -/
theorem chore_done_transition {Q R E : Type} {engine : Q → Except E R}
    {cpus : Nat} {qs : List Q} {s t : DispatchState Q R E} {l : Label}
    (hreach : Reach engine cpus (initState qs cpus) s)
    (hst : Step engine cpus s l t) :
    ∀ (i : Nat) (ch ch' : Chore Q R E),
      s.chores[i]? = some ch → t.chores[i]? = some ch' →
      (ch.event = true → ch'.event = true ∧ ch' = ch)
      ∧ (ch.event = false → ch'.event = true →
          (ch'.hits ≠ none ∧ ch'.exception = none)
          ∨ (ch'.hits = none ∧ ch'.exception ≠ none)) := by
  have hinv := inv_reach hreach
  have unchanged : ∀ (i : Nat) (ch ch' : Chore Q R E),
      s.chores[i]? = some ch → s.chores[i]? = some ch' →
      (ch.event = true → ch'.event = true ∧ ch' = ch)
      ∧ (ch.event = false → ch'.event = true →
          (ch'.hits ≠ none ∧ ch'.exception = none)
          ∨ (ch'.hits = none ∧ ch'.exception ≠ none)) := by
    intro i ch ch' h1 h2
    rw [h1] at h2
    injection h2 with h2
    subst h2
    exact ⟨fun hev => ⟨hev, rfl⟩, fun hf ht => by rw [hf] at ht; cases ht⟩
  cases hst with
  | putChore hprod hroom =>
    intro i ch ch' h1 h2
    have h2' : (s.chores ++ [Chore.make _])[i]? = some ch' := h2
    rw [getElem?_append_one] at h2'
    split at h2'
    · next hi =>
      rw [hi] at h1
      rw [List.getElem?_eq_none (le_refl _)] at h1
      cases h1
    · exact unchanged i ch ch' h1 h2'
  | headNotReady hprod hres hch hev => exact unchanged
  | headYield hprod hres hch hev hexc => exact unchanged
  | headRaise hprod hres hch hev hexc => exact unchanged
  | startPoison hprod => exact unchanged
  | putPill hprod hroom => exact unchanged
  | startDrain hprod => exact unchanged
  | drainYield hprod hres hch hev hexc => exact unchanged
  | drainRaise hprod hres hch hev hexc => exact unchanged
  | drainDone hprod hres => exact unchanged
  | workerStopStep hw hkill => exact unchanged
  | workerDequeuePill hw hkill hsem hq => exact unchanged
  | workerDequeueChore hw hkill hsem hq => exact unchanged
  | workerCompleteStep hw hch hrun =>
    rename_i w idx ch0 r
    intro i ch ch' h1 h2
    have hidxlt : idx < s.chores.length := getElem?_some_lt hch
    have h2' : (s.chores.set idx (ch0.complete r))[i]? = some ch' := h2
    rw [getElem?_set_split _ _ _ _ hidxlt] at h2'
    split at h2'
    · next hi =>
      subst hi
      rw [hch] at h1
      injection h1 with h1
      subst h1
      have hev0 : ch0.event = false := by
        obtain ⟨chp, hchp, hevp⟩ := hinv.heldPending w _ (Or.inl hw)
        rw [hch] at hchp
        injection hchp with hchp
        rw [← hchp] at hevp
        exact hevp
      obtain ⟨hhits0, hexc0⟩ := hinv.statusPending _ ch0 hch hev0
      injection h2' with h2'
      subst h2'
      constructor
      · intro hev
        rw [hev0] at hev
        cases hev
      · intro _ _
        exact Or.inl ⟨by simp [Chore.complete], by simp [Chore.complete, hexc0]⟩
    · exact unchanged i ch ch' h1 h2'
  | workerKillStep hw hch hrun => exact unchanged
  | workerFailStep hw hch =>
    rename_i w idx e ch0
    intro i ch ch' h1 h2
    have hidxlt : idx < s.chores.length := getElem?_some_lt hch
    have h2' : (s.chores.set idx (ch0.fail e))[i]? = some ch' := h2
    rw [getElem?_set_split _ _ _ _ hidxlt] at h2'
    split at h2'
    · next hi =>
      subst hi
      rw [hch] at h1
      injection h1 with h1
      subst h1
      have hev0 : ch0.event = false := by
        obtain ⟨chp, hchp, hevp⟩ := hinv.heldPending w _ (Or.inr ⟨e, hw⟩)
        rw [hch] at hchp
        injection hchp with hchp
        rw [← hchp] at hevp
        exact hevp
      obtain ⟨hhits0, hexc0⟩ := hinv.statusPending _ ch0 hch hev0
      injection h2' with h2'
      subst h2'
      constructor
      · intro hev
        rw [hev0] at hev
        cases hev
      · intro _ _
        exact Or.inr ⟨by simp [Chore.fail, hhits0], by simp [Chore.fail]⟩
    · exact unchanged i ch ch' h1 h2'

/-- Witness for C7 (amended): the completion step of the demo run flips
chore 0 from pending to done with exactly the result slot set. -/
theorem chore_done_transition_witness :
    demoS4.chores[0]? = some (⟨10, false, none, none⟩ : Chore Nat Nat Nat)
    ∧ demoS5.chores[0]? = some (⟨10, true, some 11, none⟩ : Chore Nat Nat Nat)
    ∧ (((⟨10, true, some 11, none⟩ : Chore Nat Nat Nat).hits ≠ none
        ∧ (⟨10, true, some 11, none⟩ : Chore Nat Nat Nat).exception = none)
      ∨ ((⟨10, true, some 11, none⟩ : Chore Nat Nat Nat).hits = none
        ∧ (⟨10, true, some 11, none⟩ : Chore Nat Nat Nat).exception ≠ none)) := by
  refine ⟨rfl, rfl, ?_⟩
  have h := chore_done_transition demoReach4
    (show Step demoEngine 2 demoS4 (.workerComplete 0) demoS5 from
      @Step.workerCompleteStep Nat Nat Nat demoEngine 2 demoS4 0 0
        ⟨10, false, none, none⟩ 11 rfl rfl rfl)
    0 ⟨10, false, none, none⟩ ⟨10, true, some 11, none⟩ rfl rfl
  exact h.2 rfl rfl

/-! ### C9: empty input -/

/-- C9 counterexample: with zero queries the hint is 0, which does not
downsize the pool — requesting 8 workers for an empty list spawns all 8
worker threads, not zero or one. -/
theorem empty_input_spawn_cex :
    dispatcherCpus 8 0 = .ok 8
    ∧ (initState ([] : List Nat) 8 : DispatchState Nat Nat Nat).workers.length = 8 :=
  ⟨rfl, by decide⟩

/-- Empty run, entering the poisoning phase. -/
def emptyS1 : DispatchState Nat Nat Nat :=
  ⟨[], [], 0, false, 0, [.running, .running], [], .poisoning 2, []⟩

/-- Empty run, after the first poison pill. -/
def emptyS2 : DispatchState Nat Nat Nat :=
  ⟨[], [none], 1, false, 0, [.running, .running], [], .poisoning 1, []⟩

/-- Empty run, after worker 0 stopped. -/
def emptyS3 : DispatchState Nat Nat Nat :=
  ⟨[], [], 0, false, 0, [.stopped, .running], [], .poisoning 1, []⟩

/-- Empty run, after the second poison pill. -/
def emptyS4 : DispatchState Nat Nat Nat :=
  ⟨[], [none], 1, false, 0, [.stopped, .running], [], .poisoning 0, []⟩

/-- Empty run, after worker 1 stopped. -/
def emptyS5 : DispatchState Nat Nat Nat :=
  ⟨[], [], 0, false, 0, [.stopped, .stopped], [], .poisoning 0, []⟩

/-- Empty run, entering the drain phase. -/
def emptyS6 : DispatchState Nat Nat Nat :=
  ⟨[], [], 0, false, 0, [.stopped, .stopped], [], .draining, []⟩

/-- Final state of the empty run: all workers stopped, nothing emitted. -/
def emptyFinal : DispatchState Nat Nat Nat :=
  ⟨[], [], 0, false, 0, [.stopped, .stopped], [], .finished, []⟩

/-- The empty run terminates promptly: every worker eats a pill. -/
theorem emptyReach : Reach demoEngine 2 (initState ([] : List Nat) 2) emptyFinal := by
  have h01 : StepAny demoEngine 2 (initState ([] : List Nat) 2) emptyS1 :=
    ⟨_, by apply Step.startPoison <;> first | rfl | decide⟩
  have h12 : StepAny demoEngine 2 emptyS1 emptyS2 :=
    ⟨_, by apply Step.putPill <;> first | rfl | decide⟩
  have h23 : StepAny demoEngine 2 emptyS2 emptyS3 :=
    ⟨Label.workerDequeue 0 none,
      by apply Step.workerDequeuePill <;> first | rfl | decide⟩
  have h34 : StepAny demoEngine 2 emptyS3 emptyS4 :=
    ⟨_, by apply Step.putPill <;> first | rfl | decide⟩
  have h45 : StepAny demoEngine 2 emptyS4 emptyS5 :=
    ⟨Label.workerDequeue 1 none,
      by apply Step.workerDequeuePill <;> first | rfl | decide⟩
  have h56 : StepAny demoEngine 2 emptyS5 emptyS6 :=
    ⟨_, by apply Step.startDrain <;> first | rfl | decide⟩
  have h67 : StepAny demoEngine 2 emptyS6 emptyFinal :=
    ⟨_, by apply Step.drainDone <;> first | rfl | decide⟩
  exact .head h01 (.head h12 (.head h23 (.head h34 (.head h45
    (.head h56 (.head h67 .refl))))))

/-- C9 amended: with zero queries, the run yields an empty result
sequence in every reachable state, terminates promptly (the poison pills
stop every worker and the generator finishes, shown on a concrete
two-worker run), but the full requested number of workers is spawned —
the zero hint does not shrink the pool. -/
theorem empty_input_run {Q R E : Type} (engine : Q → Except E R) (n : Nat) :
    (initState ([] : List Q) n : DispatchState Q R E).workers.length = n
    ∧ (∀ s : DispatchState Q R E,
        Reach engine n (initState ([] : List Q) n) s → s.emitted = [])
    ∧ ∃ t : DispatchState Nat Nat Nat,
        Reach demoEngine 2 (initState ([] : List Nat) 2) t
        ∧ t.prod = .finished ∧ t.workers = [.stopped, .stopped] := by
  refine ⟨by simp [initState], ?_, emptyFinal, emptyReach, rfl, rfl⟩
  intro s h
  have hinv := inv_reach h
  have h1 := hinv.emittedLen
  have h2 := hinv.choresLe
  simp only [List.length_nil] at h2
  have h3 : s.emitted.length = 0 := by omega
  exact List.eq_nil_of_length_eq_zero h3

/-- Witness for C9 (amended): eight workers, empty input, nothing emitted
in the initial state. -/
theorem empty_input_run_witness :
    (initState ([] : List Nat) 8 : DispatchState Nat Nat Nat).workers.length = 8
    ∧ (initState ([] : List Nat) 8 : DispatchState Nat Nat Nat).emitted = [] :=
  ⟨(@empty_input_run Nat Nat Nat demoEngine 8).1,
   (@empty_input_run Nat Nat Nat demoEngine 8).2.1 _ Relation.ReflTransGen.refl⟩

/-! ### C10: the public entry points accept `cpus = 0` -/

/-- The automatic cpu count is always positive. -/
theorem autoCpus_zero_pos (p o : Option Nat) : 0 < autoCpus 0 p o := by
  unfold autoCpus
  rw [if_neg (by decide)]
  have h : 0 < pyOrNat (pyOrOpt p o) 1 := by
    unfold pyOrNat
    cases pyOrOpt p o with
    | none => decide
    | some k =>
      by_cases hk : k = 0
      · simp [hk]
      · simp [hk]
        omega
  exact_mod_cast h

/-- C10.  Every public entry point (`hmmsearch`, `phmmer`, `nhmmer`,
`hmmscan`) accepts `cpus = 0` without raising: the automatically selected
count (from the detected physical count, the OS count, or the fallback 1,
with Python `or` semantics) is strictly positive, whatever the detection
returns, so the dispatcher's positive-`cpus` precondition is always met
and its construction succeeds. -/
theorem entry_points_accept_zero_cpus :
    ∀ (physical osCount : Option Nat) (hint : Nat),
      0 < hmmsearchCpus 0 physical osCount
      ∧ 0 < phmmerCpus 0 physical osCount
      ∧ 0 < nhmmerCpus 0 physical osCount
      ∧ 0 < hmmscanCpus 0 physical osCount
      ∧ ∃ k : Int, 0 < k
          ∧ dispatcherCpus (hmmsearchCpus 0 physical osCount) hint = .ok k
          ∧ dispatcherCpus (hmmscanCpus 0 physical osCount) hint = .ok k := by
  intro p o hint
  have hc : 0 < autoCpus 0 p o := autoCpus_zero_pos p o
  refine ⟨hc, hc, hc, hc, ?_⟩
  by_cases hh : 0 < hint
  · refine ⟨min (autoCpus 0 p o) (hint : Int), ?_, ?_, ?_⟩
    · exact lt_min hc (by exact_mod_cast hh)
    · show dispatcherCpus (autoCpus 0 p o) hint = _
      unfold dispatcherCpus
      rw [if_neg (by omega), if_pos hh]
    · show dispatcherCpus (autoCpus 0 p o) hint = _
      unfold dispatcherCpus
      rw [if_neg (by omega), if_pos hh]
  · refine ⟨autoCpus 0 p o, hc, ?_, ?_⟩
    · show dispatcherCpus (autoCpus 0 p o) hint = _
      unfold dispatcherCpus
      rw [if_neg (by omega), if_neg hh]
    · show dispatcherCpus (autoCpus 0 p o) hint = _
      unfold dispatcherCpus
      rw [if_neg (by omega), if_neg hh]

/-! ### C8: backpressure

The bounded queue does bound its own occupancy, but the deque of
enqueued-but-not-yet-consumed WorkItems is *not* bounded by
`capacity + pool size + 1`: while its head item is still running on a
slow worker, a fast worker keeps draining the queue and completed items
pile up in the deque (the producer pops at most one item per enqueue,
and only when the head is done).  The run below, with 6 queries and
2 workers (capacity 2, so the claimed bound is 5), reaches a state with
6 items enqueued and none consumed. -/

/-- Backpressure run, after enqueuing query 0. -/
def bpS1 : DispatchState Nat Nat Nat :=
  ⟨[⟨0, false, none, none⟩], [some 0], 1, false, 1,
    [.running, .running], [0], .checkingHead [1, 2, 3, 4, 5], []⟩

/-- Backpressure run, head not ready. -/
def bpS2 : DispatchState Nat Nat Nat :=
  ⟨[⟨0, false, none, none⟩], [some 0], 1, false, 1,
    [.running, .running], [0], .feeding [1, 2, 3, 4, 5], []⟩

/-- Backpressure run, after enqueuing query 1. -/
def bpS3 : DispatchState Nat Nat Nat :=
  ⟨[⟨0, false, none, none⟩, ⟨1, false, none, none⟩], [some 0, some 1], 2,
    false, 2, [.running, .running], [0, 1], .checkingHead [2, 3, 4, 5], []⟩

/-- Backpressure run, head not ready. -/
def bpS4 : DispatchState Nat Nat Nat :=
  ⟨[⟨0, false, none, none⟩, ⟨1, false, none, none⟩], [some 0, some 1], 2,
    false, 2, [.running, .running], [0, 1], .feeding [2, 3, 4, 5], []⟩

/-- Backpressure run, worker 0 dequeued chore 0 (and will stay on it). -/
def bpS5 : DispatchState Nat Nat Nat :=
  ⟨[⟨0, false, none, none⟩, ⟨1, false, none, none⟩], [some 1], 1,
    false, 2, [.working 0, .running], [0, 1], .feeding [2, 3, 4, 5], []⟩

/-- Backpressure run, worker 1 dequeued chore 1. -/
def bpS6 : DispatchState Nat Nat Nat :=
  ⟨[⟨0, false, none, none⟩, ⟨1, false, none, none⟩], [], 0,
    false, 2, [.working 0, .working 1], [0, 1], .feeding [2, 3, 4, 5], []⟩

/-- Backpressure run, worker 1 completed chore 1. -/
def bpS7 : DispatchState Nat Nat Nat :=
  ⟨[⟨0, false, none, none⟩, ⟨1, true, some 2, none⟩], [], 0,
    false, 2, [.working 0, .running], [0, 1], .feeding [2, 3, 4, 5], []⟩

/-- Backpressure run, after enqueuing query 2. -/
def bpS8 : DispatchState Nat Nat Nat :=
  ⟨[⟨0, false, none, none⟩, ⟨1, true, some 2, none⟩, ⟨2, false, none, none⟩],
    [some 2], 1, false, 3, [.working 0, .running], [0, 1, 2],
    .checkingHead [3, 4, 5], []⟩

/-- Backpressure run, head (chore 0) still not ready. -/
def bpS9 : DispatchState Nat Nat Nat :=
  ⟨[⟨0, false, none, none⟩, ⟨1, true, some 2, none⟩, ⟨2, false, none, none⟩],
    [some 2], 1, false, 3, [.working 0, .running], [0, 1, 2],
    .feeding [3, 4, 5], []⟩

/-- Backpressure run, worker 1 dequeued chore 2. -/
def bpS10 : DispatchState Nat Nat Nat :=
  ⟨[⟨0, false, none, none⟩, ⟨1, true, some 2, none⟩, ⟨2, false, none, none⟩],
    [], 0, false, 3, [.working 0, .working 2], [0, 1, 2],
    .feeding [3, 4, 5], []⟩

/-- Backpressure run, worker 1 completed chore 2. -/
def bpS11 : DispatchState Nat Nat Nat :=
  ⟨[⟨0, false, none, none⟩, ⟨1, true, some 2, none⟩, ⟨2, true, some 3, none⟩],
    [], 0, false, 3, [.working 0, .running], [0, 1, 2],
    .feeding [3, 4, 5], []⟩

/-- Backpressure run, after enqueuing query 3. -/
def bpS12 : DispatchState Nat Nat Nat :=
  ⟨[⟨0, false, none, none⟩, ⟨1, true, some 2, none⟩, ⟨2, true, some 3, none⟩,
    ⟨3, false, none, none⟩],
    [some 3], 1, false, 4, [.working 0, .running], [0, 1, 2, 3],
    .checkingHead [4, 5], []⟩

/-- Backpressure run, head still not ready. -/
def bpS13 : DispatchState Nat Nat Nat :=
  ⟨[⟨0, false, none, none⟩, ⟨1, true, some 2, none⟩, ⟨2, true, some 3, none⟩,
    ⟨3, false, none, none⟩],
    [some 3], 1, false, 4, [.working 0, .running], [0, 1, 2, 3],
    .feeding [4, 5], []⟩

/-- Backpressure run, worker 1 dequeued chore 3. -/
def bpS14 : DispatchState Nat Nat Nat :=
  ⟨[⟨0, false, none, none⟩, ⟨1, true, some 2, none⟩, ⟨2, true, some 3, none⟩,
    ⟨3, false, none, none⟩],
    [], 0, false, 4, [.working 0, .working 3], [0, 1, 2, 3],
    .feeding [4, 5], []⟩

/-- Backpressure run, worker 1 completed chore 3. -/
def bpS15 : DispatchState Nat Nat Nat :=
  ⟨[⟨0, false, none, none⟩, ⟨1, true, some 2, none⟩, ⟨2, true, some 3, none⟩,
    ⟨3, true, some 4, none⟩],
    [], 0, false, 4, [.working 0, .running], [0, 1, 2, 3],
    .feeding [4, 5], []⟩

/-- Backpressure run, after enqueuing query 4. -/
def bpS16 : DispatchState Nat Nat Nat :=
  ⟨[⟨0, false, none, none⟩, ⟨1, true, some 2, none⟩, ⟨2, true, some 3, none⟩,
    ⟨3, true, some 4, none⟩, ⟨4, false, none, none⟩],
    [some 4], 1, false, 5, [.working 0, .running], [0, 1, 2, 3, 4],
    .checkingHead [5], []⟩

/-- Backpressure run, head still not ready. -/
def bpS17 : DispatchState Nat Nat Nat :=
  ⟨[⟨0, false, none, none⟩, ⟨1, true, some 2, none⟩, ⟨2, true, some 3, none⟩,
    ⟨3, true, some 4, none⟩, ⟨4, false, none, none⟩],
    [some 4], 1, false, 5, [.working 0, .running], [0, 1, 2, 3, 4],
    .feeding [5], []⟩

/-- Backpressure run, worker 1 dequeued chore 4. -/
def bpS18 : DispatchState Nat Nat Nat :=
  ⟨[⟨0, false, none, none⟩, ⟨1, true, some 2, none⟩, ⟨2, true, some 3, none⟩,
    ⟨3, true, some 4, none⟩, ⟨4, false, none, none⟩],
    [], 0, false, 5, [.working 0, .working 4], [0, 1, 2, 3, 4],
    .feeding [5], []⟩

/-- Backpressure run, worker 1 completed chore 4. -/
def bpS19 : DispatchState Nat Nat Nat :=
  ⟨[⟨0, false, none, none⟩, ⟨1, true, some 2, none⟩, ⟨2, true, some 3, none⟩,
    ⟨3, true, some 4, none⟩, ⟨4, true, some 5, none⟩],
    [], 0, false, 5, [.working 0, .running], [0, 1, 2, 3, 4],
    .feeding [5], []⟩

/-- Backpressure run, after enqueuing query 5: six WorkItems are
enqueued-but-not-yet-consumed while none has been yielded. -/
def bpFinal : DispatchState Nat Nat Nat :=
  ⟨[⟨0, false, none, none⟩, ⟨1, true, some 2, none⟩, ⟨2, true, some 3, none⟩,
    ⟨3, true, some 4, none⟩, ⟨4, true, some 5, none⟩, ⟨5, false, none, none⟩],
    [some 5], 1, false, 6, [.working 0, .running], [0, 1, 2, 3, 4, 5],
    .checkingHead [], []⟩

/-- The backpressure run is a genuine execution of the machine. -/
theorem bpReach : Reach demoEngine 2 (initState [0, 1, 2, 3, 4, 5] 2) bpFinal := by
  have h01 : StepAny demoEngine 2 (initState [0, 1, 2, 3, 4, 5] 2) bpS1 :=
    ⟨_, by apply Step.putChore <;> first | rfl | decide⟩
  have h12 : StepAny demoEngine 2 bpS1 bpS2 :=
    ⟨_, by apply Step.headNotReady <;> first | rfl | decide⟩
  have h23 : StepAny demoEngine 2 bpS2 bpS3 :=
    ⟨_, by apply Step.putChore <;> first | rfl | decide⟩
  have h34 : StepAny demoEngine 2 bpS3 bpS4 :=
    ⟨_, by apply Step.headNotReady <;> first | rfl | decide⟩
  have h45 : StepAny demoEngine 2 bpS4 bpS5 :=
    ⟨Label.workerDequeue 0 (some 0),
      by apply Step.workerDequeueChore <;> first | rfl | decide⟩
  have h56 : StepAny demoEngine 2 bpS5 bpS6 :=
    ⟨Label.workerDequeue 1 (some 1),
      by apply Step.workerDequeueChore <;> first | rfl | decide⟩
  have h67 : StepAny demoEngine 2 bpS6 bpS7 :=
    ⟨Label.workerComplete 1,
      @Step.workerCompleteStep Nat Nat Nat demoEngine 2 bpS6 1 1
        ⟨1, false, none, none⟩ 2 rfl rfl rfl⟩
  have h78 : StepAny demoEngine 2 bpS7 bpS8 :=
    ⟨_, by apply Step.putChore <;> first | rfl | decide⟩
  have h89 : StepAny demoEngine 2 bpS8 bpS9 :=
    ⟨_, by apply Step.headNotReady <;> first | rfl | decide⟩
  have h910 : StepAny demoEngine 2 bpS9 bpS10 :=
    ⟨Label.workerDequeue 1 (some 2),
      by apply Step.workerDequeueChore <;> first | rfl | decide⟩
  have h1011 : StepAny demoEngine 2 bpS10 bpS11 :=
    ⟨Label.workerComplete 1,
      @Step.workerCompleteStep Nat Nat Nat demoEngine 2 bpS10 1 2
        ⟨2, false, none, none⟩ 3 rfl rfl rfl⟩
  have h1112 : StepAny demoEngine 2 bpS11 bpS12 :=
    ⟨_, by apply Step.putChore <;> first | rfl | decide⟩
  have h1213 : StepAny demoEngine 2 bpS12 bpS13 :=
    ⟨_, by apply Step.headNotReady <;> first | rfl | decide⟩
  have h1314 : StepAny demoEngine 2 bpS13 bpS14 :=
    ⟨Label.workerDequeue 1 (some 3),
      by apply Step.workerDequeueChore <;> first | rfl | decide⟩
  have h1415 : StepAny demoEngine 2 bpS14 bpS15 :=
    ⟨Label.workerComplete 1,
      @Step.workerCompleteStep Nat Nat Nat demoEngine 2 bpS14 1 3
        ⟨3, false, none, none⟩ 4 rfl rfl rfl⟩
  have h1516 : StepAny demoEngine 2 bpS15 bpS16 :=
    ⟨_, by apply Step.putChore <;> first | rfl | decide⟩
  have h1617 : StepAny demoEngine 2 bpS16 bpS17 :=
    ⟨_, by apply Step.headNotReady <;> first | rfl | decide⟩
  have h1718 : StepAny demoEngine 2 bpS17 bpS18 :=
    ⟨Label.workerDequeue 1 (some 4),
      by apply Step.workerDequeueChore <;> first | rfl | decide⟩
  have h1819 : StepAny demoEngine 2 bpS18 bpS19 :=
    ⟨Label.workerComplete 1,
      @Step.workerCompleteStep Nat Nat Nat demoEngine 2 bpS18 1 4
        ⟨4, false, none, none⟩ 5 rfl rfl rfl⟩
  have h1920 : StepAny demoEngine 2 bpS19 bpFinal :=
    ⟨_, by apply Step.putChore <;> first | rfl | decide⟩
  exact .head h01 (.head h12 (.head h23 (.head h34 (.head h45 (.head h56
    (.head h67 (.head h78 (.head h89 (.head h910 (.head h1011 (.head h1112
      (.head h1213 (.head h1314 (.head h1415 (.head h1516 (.head h1617
        (.head h1718 (.head h1819 (.head h1920 .refl)))))))))))))))))))

/-- C8 counterexample: a reachable state of a 6-query, 2-worker run
(queue capacity 2, claimed bound 2 + 2 + 1 = 5) in which 6 WorkItems
have been enqueued and none yet consumed by the caller. -/
theorem backpressure_bound_cex :
    Reach demoEngine 2 (initState [0, 1, 2, 3, 4, 5] 2) bpFinal
    ∧ bpFinal.results.length = 6
    ∧ ¬ (bpFinal.results.length ≤ 2 + 2 + 1) :=
  ⟨bpReach, by decide, by decide⟩

/-- C8 amended: the bounded queue itself never exceeds its capacity
(`maxsize = pool size`) in any reachable state — that is the real
backpressure guarantee; the enqueued-but-unconsumed count, by contrast,
is unbounded in general (see the counterexample). -/
theorem queue_capacity_bound {Q R E : Type} {engine : Q → Except E R}
    {cpus : Nat} {qs : List Q} {s : DispatchState Q R E}
    (h : Reach engine cpus (initState qs cpus) s) :
    s.queryQueue.length ≤ cpus :=
  (inv_reach h).queueLen

/-- Witness for C8 (amended), on the demo run's final state. -/
theorem queue_capacity_bound_witness :
    demoFinal.queryQueue.length ≤ 2 :=
  queue_capacity_bound demoReach

end PyHmmer
